import Mathlib

/-!
Verification development for the CodeCanvas core engine.

The definitions below are a shallow embedding of the engine's source files:
the dependency graph (`graph.ts`), Tarjan cycle detection (`cycles.ts`),
cycle-breaking suggestions (`suggestions.ts`), the tree-sitter import
extractor (`parser.ts`), the parse cache (`cache.ts`) and the directory
analyzer with its specifier resolver (`analyzer.ts`).  JS `Map`s are
modelled as insertion-ordered association lists, the file system as an
explicit record of directory listings and existing regular files, and the
recursive procedures carry an explicit fuel argument that provably never
runs out on the inputs considered.
-/

set_option maxHeartbeats 1000000

/-- Association-list lookup, modelling `Map.get` (first matching key). -/
def aGet {α : Type} : List (String × α) → String → Option α
  | [], _ => none
  | (k, v) :: rest, j => if j = k then some v else aGet rest j

/-- Association-list update, modelling `Map.set`: replace in place when the
key is present (keeping insertion order), otherwise append at the end. -/
def aSet {α : Type} (m : List (String × α)) (k : String) (v : α) : List (String × α) :=
  if (aGet m k).isSome then
    m.map (fun p => if p.1 = k then (p.1, v) else p)
  else m ++ [(k, v)]

/-- Association-list removal, modelling `Map.delete`. -/
def aDel {α : Type} (m : List (String × α)) (k : String) : List (String × α) :=
  m.filter (fun p => p.1 ≠ k)

/-- First `some` produced by `f` along a list (models an early-`return` loop). -/
def firstSome {α β : Type} (f : α → Option β) : List α → Option β
  | [] => none
  | a :: rest =>
    match f a with
    | some b => some b
    | none => firstSome f rest

/-- Whether `pat` occurs at the head of `s`. -/
def leadsWith : List Char → List Char → Bool
  | [], _ => true
  | _ :: _, [] => false
  | a :: s, b :: t => a = b && leadsWith s t

/-- Whether `needle` occurs somewhere inside the list (JS `String.includes`). -/
def hasSubList (needle : List Char) : List Char → Bool
  | [] => leadsWith needle []
  | c :: rest => leadsWith needle (c :: rest) || hasSubList needle rest

/-- JS `hay.includes(needle)`. -/
def containsSub (hay needle : String) : Bool :=
  hasSubList needle.data hay.data

/-- Drop `n` characters from the left of a string (JS `slice(n)`). -/
def dropLeftStr (s : String) (n : Nat) : String :=
  String.mk (s.data.drop n)

/-- Drop `n` characters from the right of a string (JS `slice(0, -n)`). -/
def dropRightStr (s : String) (n : Nat) : String :=
  String.mk (s.data.take (s.data.length - n))

/-- Split a character list at a separator (JS `split`, Lean `splitOn`). -/
def splitChar (sep : Char) : List Char → List (List Char)
  | [] => [[]]
  | c :: rest =>
    let r := splitChar sep rest
    if c = sep then [] :: r
    else
      match r with
      | [] => [[c]]
      | h :: t => (c :: h) :: t

/-- String split on a one-character separator. -/
def strSplit (sep : Char) (s : String) : List String :=
  (splitChar sep s.data).map String.mk

/-- Join strings with a separator. -/
def joinWith (sep : String) : List String → String
  | [] => ""
  | [x] => x
  | x :: rest => x ++ sep ++ joinWith sep rest

/-- `s.startsWith pre`. -/
def startsWithStr (s pre : String) : Bool :=
  leadsWith pre.data s.data

/-- `s.endsWith post`. -/
def endsWithStr (s post : String) : Bool :=
  leadsWith post.data.reverse s.data.reverse

/-- ASCII lowercase of one character. -/
def charLower (c : Char) : Char :=
  if 65 ≤ c.toNat ∧ c.toNat ≤ 90 then Char.ofNat (c.toNat + 32) else c

/-- ASCII `toLowerCase`. -/
def toLowerStr (s : String) : String :=
  String.mk (s.data.map charLower)

/-! ## POSIX path model (`node:path` as used by the analyzer) -/

/-- Normalize an absolute path: split on `/`, drop empty and `.` segments,
let `..` pop the previous segment, and reassemble with a leading `/`. -/
def normAbs (s : String) : String :=
  let segs := (strSplit '/' s).filter (fun x => x ≠ "" && x ≠ ".")
  let final := segs.foldl (fun acc seg => if seg = ".." then acc.dropLast else acc ++ [seg]) []
  "/" ++ joinWith "/" final

/-- `path.resolve(base, rel)` with an absolute `base`. -/
def pathResolve (base rel : String) : String :=
  if startsWithStr rel "/" then normAbs rel else normAbs (base ++ "/" ++ rel)

/-- `path.resolve(a, b, c)` with an absolute `a` (rightmost absolute wins). -/
def pathResolve3 (a b c : String) : String :=
  if startsWithStr c "/" then normAbs c
  else if startsWithStr b "/" then normAbs (b ++ "/" ++ c)
  else normAbs (a ++ "/" ++ b ++ "/" ++ c)

/-- `path.join(a, b)` for an absolute `a`. -/
def pathJoin (a b : String) : String :=
  normAbs (a ++ "/" ++ b)

/-- `path.dirname` for an absolute path. -/
def dirname (s : String) : String :=
  let segs := (strSplit '/' s).filter (fun x => x ≠ "")
  "/" ++ joinWith "/" segs.dropLast

/-- `path.basename`. -/
def basename (s : String) : String :=
  ((strSplit '/' s).getLast?).getD s

/-- `path.extname`: the final dotted suffix of the basename, `""` when the
basename has no dot or starts with its only dot. -/
def extname (s : String) : String :=
  let base := basename s
  let parts := strSplit '.' base
  if parts.length ≤ 1 then ""
  else if parts.head? = some "" && parts.length = 2 then ""
  else "." ++ (parts.getLast?).getD ""

/-! ## Data model (`types.ts`) -/

/-- One extracted import statement (`ImportInfo`). -/
structure ImportInfo where
  source : String
  specifiers : List String
  type : String
  line : Nat
deriving Repr, DecidableEq

/-- A node of the dependency graph (`DependencyNode`). -/
structure DependencyNode where
  filePath : String
  dependencies : List String
  dependents : List String
deriving Repr, DecidableEq

/-- The mutable dependency graph (`graph.ts`), nodes keyed by file path in
insertion order. -/
structure DependencyGraph where
  nodes : List (String × DependencyNode) := []
  rootDir : String := ""
deriving Repr, DecidableEq

/-- A detected cycle (`CircularDependency`). -/
structure CircularDependency where
  chain : List String
  length : Nat
deriving Repr, DecidableEq

/-! ## Dependency graph operations (`graph.ts`) -/

/-- `addNode`: no-op when present, else insert a fresh node. -/
def DependencyGraph.addNode (g : DependencyGraph) (filePath : String) : DependencyGraph :=
  if (aGet g.nodes filePath).isSome then g
  else { g with nodes := g.nodes ++ [(filePath, ⟨filePath, [], []⟩)] }

/-- Update the node stored under `k` in place. -/
def DependencyGraph.updateNode (g : DependencyGraph) (k : String)
    (f : DependencyNode → DependencyNode) : DependencyGraph :=
  { g with nodes := g.nodes.map (fun p => if p.1 = k then (p.1, f p.2) else p) }

/-- `addEdge`: ensure both endpoints, then push each direction if absent. -/
def DependencyGraph.addEdge (g : DependencyGraph) (src dst : String) : DependencyGraph :=
  let g1 := (g.addNode src).addNode dst
  let g2 :=
    match aGet g1.nodes src with
    | some fromNode =>
      if fromNode.dependencies.contains dst then g1
      else g1.updateNode src (fun n => { n with dependencies := n.dependencies ++ [dst] })
    | none => g1
  match aGet g2.nodes dst with
  | some toNode =>
    if toNode.dependents.contains src then g2
    else g2.updateNode dst (fun n => { n with dependents := n.dependents ++ [src] })
  | none => g2

/-- `hasNode`. -/
def DependencyGraph.hasNode (g : DependencyGraph) (filePath : String) : Bool :=
  (aGet g.nodes filePath).isSome

/-- `hasEdge`. -/
def DependencyGraph.hasEdge (g : DependencyGraph) (src dst : String) : Bool :=
  match aGet g.nodes src with
  | some n => n.dependencies.contains dst
  | none => false

/-- `getNodes`: all keys in insertion order. -/
def DependencyGraph.getNodes (g : DependencyGraph) : List String :=
  g.nodes.map (fun p => p.1)

/-- `getEdges`. -/
def DependencyGraph.getEdges (g : DependencyGraph) : List (String × String) :=
  g.nodes.flatMap (fun p => p.2.dependencies.map (fun d => (p.1, d)))

/-- `getDependencies`: a copy of the node's outgoing list, `[]` when absent. -/
def DependencyGraph.getDependencies (g : DependencyGraph) (filePath : String) : List String :=
  match aGet g.nodes filePath with
  | some n => n.dependencies
  | none => []

/-- `getDependents`: a copy of the node's incoming list, `[]` when absent. -/
def DependencyGraph.getDependents (g : DependencyGraph) (filePath : String) : List String :=
  match aGet g.nodes filePath with
  | some n => n.dependents
  | none => []

/-- `nodeCount`. -/
def DependencyGraph.nodeCount (g : DependencyGraph) : Nat :=
  g.nodes.length

/-- `edgeCount`: sum of outgoing-list lengths. -/
def DependencyGraph.edgeCount (g : DependencyGraph) : Nat :=
  g.nodes.foldl (fun acc p => acc + p.2.dependencies.length) 0

/-- `removeNode`: scrub the path from every adjacency list, then delete it. -/
def DependencyGraph.removeNode (g : DependencyGraph) (filePath : String) : DependencyGraph :=
  match aGet g.nodes filePath with
  | none => g
  | some node =>
    let g1 := node.dependents.foldl
      (fun acc dep => acc.updateNode dep
        (fun n => { n with dependencies := n.dependencies.filter (fun d => d ≠ filePath) })) g
    let deps1 :=
      match aGet g1.nodes filePath with
      | some n => n.dependencies
      | none => []
    let g2 := deps1.foldl
      (fun acc dep => acc.updateNode dep
        (fun n => { n with dependents := n.dependents.filter (fun d => d ≠ filePath) })) g1
    { g2 with nodes := aDel g2.nodes filePath }

/-- `removeEdge`: symmetric scrub, endpoints stay. -/
def DependencyGraph.removeEdge (g : DependencyGraph) (src dst : String) : DependencyGraph :=
  let g1 :=
    if (aGet g.nodes src).isSome then
      g.updateNode src (fun n => { n with dependencies := n.dependencies.filter (fun d => d ≠ dst) })
    else g
  if (aGet g1.nodes dst).isSome then
    g1.updateNode dst (fun n => { n with dependents := n.dependents.filter (fun d => d ≠ src) })
  else g1

/-- One public mutation of the graph. -/
inductive GraphOp where
  | addNode (p : String)
  | addEdge (src dst : String)
  | removeNode (p : String)
  | removeEdge (src dst : String)
deriving Repr, DecidableEq

/-- Apply one mutation. -/
def applyOp (g : DependencyGraph) : GraphOp → DependencyGraph
  | .addNode p => g.addNode p
  | .addEdge s d => g.addEdge s d
  | .removeNode p => g.removeNode p
  | .removeEdge s d => g.removeEdge s d

/-- Apply a sequence of mutations in order. -/
def applyOps (ops : List GraphOp) (g : DependencyGraph) : DependencyGraph :=
  ops.foldl applyOp g

/-- The empty graph. -/
def graphEmpty : DependencyGraph := ⟨[], ""⟩

/-- Bidirectional consistency: `v ∈ u.outgoing ⇔ u ∈ v.incoming` for all
pairs of nodes present in the graph. -/
def Consistent (g : DependencyGraph) : Prop :=
  ∀ u v nu nv, aGet g.nodes u = some nu → aGet g.nodes v = some nv →
    (v ∈ nu.dependencies ↔ u ∈ nv.dependents)

/-- Every adjacency entry refers to a present node. -/
def ClosedGraph (g : DependencyGraph) : Prop :=
  ∀ u nu, aGet g.nodes u = some nu →
    (∀ v ∈ nu.dependencies, (aGet g.nodes v).isSome = true) ∧
    (∀ v ∈ nu.dependents, (aGet g.nodes v).isSome = true)

/-- The conjunction of the two structural graph invariants. -/
def GraphInv (g : DependencyGraph) : Prop :=
  Consistent g ∧ ClosedGraph g

/-- A nonempty directed path along graph edges. -/
inductive GPath (g : DependencyGraph) : String → String → Prop
  | single {u v : String} : g.hasEdge u v = true → GPath g u v
  | cons {u w v : String} : g.hasEdge u w = true → GPath g w v → GPath g u v

/-- Reflexive-transitive reachability. -/
def ReachStar (g : DependencyGraph) (u v : String) : Prop :=
  u = v ∨ GPath g u v

/-- No nonempty directed cycle: no self-loop and no SCC of size two or more. -/
def Acyclic (g : DependencyGraph) : Prop :=
  ∀ v, ¬ GPath g v v

/-! ## Tarjan SCCs and cycle detection (`cycles.ts`) -/

/-- Internal state of Tarjan's algorithm (`TarjanState`).  The stack is a
Lean list whose head is the JS array's top (its last element). -/
structure TarjanState where
  index : Nat
  stack : List String
  onStack : List String
  indices : List (String × Nat)
  lowlinks : List (String × Nat)
  sccs : List (List String)
deriving Repr, DecidableEq

/-- Fresh Tarjan state. -/
def tarjanInit : TarjanState := ⟨0, [], [], [], [], []⟩

/-- Numeric map read with the JS non-null assertion modelled as a default. -/
def nGet (m : List (String × Nat)) (k : String) : Nat :=
  (aGet m k).getD 0

/-- Pop the stack down to (and including) `v`, as the `do/while` loop of
`strongConnect`; returns the popped SCC (top first) and the rest. -/
def popUntil (v : String) : List String → (List String × List String)
  | [] => ([], [])
  | w :: rest =>
    if w = v then ([w], rest)
    else
      let pr := popUntil v rest
      (w :: pr.1, pr.2)

/-- The body of the successor loop of `strongConnect`; `recur` is the
recursive call at the remaining fuel. -/
def tarjanStep (recur : String → TarjanState → TarjanState)
    (v : String) (st : TarjanState) (w : String) : TarjanState :=
  if (aGet st.indices w).isNone then
    let st1 := recur w st
    { st1 with lowlinks := aSet st1.lowlinks v (min (nGet st1.lowlinks v) (nGet st1.lowlinks w)) }
  else if st.onStack.contains w then
    { st with lowlinks := aSet st.lowlinks v (min (nGet st.lowlinks v) (nGet st.indices w)) }
  else st

/-- `strongConnect` with fuel; the fuel provably never runs out when it
exceeds the number of unvisited nodes. -/
def strongConnect (g : DependencyGraph) : Nat → String → TarjanState → TarjanState
  | 0, _, st => st
  | fuel + 1, v, st =>
    let st1 : TarjanState :=
      { st with
        indices := aSet st.indices v st.index
        lowlinks := aSet st.lowlinks v st.index
        index := st.index + 1
        stack := v :: st.stack
        onStack := v :: st.onStack }
    let st2 := (g.getDependencies v).foldl (tarjanStep (strongConnect g fuel) v) st1
    if nGet st2.lowlinks v = nGet st2.indices v then
      let pr := popUntil v st2.stack
      { st2 with
        stack := pr.2
        onStack := st2.onStack.filter (fun x => ¬ pr.1.contains x)
        sccs := st2.sccs ++ [pr.1] }
    else st2

/-- `findStronglyConnectedComponents`: run Tarjan from each unvisited node. -/
def findStronglyConnectedComponents (g : DependencyGraph) : List (List String) :=
  let st := g.getNodes.foldl
    (fun st v =>
      if (aGet st.indices v).isNone then strongConnect g (g.nodes.length + 1) v st else st)
    tarjanInit
  st.sccs

/-- The backtracking DFS of `reconstructCyclePath`, searching for a path
inside the SCC that returns to `start`. -/
def reconDfs (g : DependencyGraph) (sccSet : List String) (start : String) :
    Nat → String → List String → List String → Option (List String)
  | 0, _, _, _ => none
  | fuel + 1, current, path, visited =>
    if path ≠ [] ∧ current = start then some (path ++ [current])
    else if visited.contains current then none
    else
      let deps := (g.getDependencies current).filter (fun d => sccSet.contains d)
      firstSome
        (fun d => reconDfs g sccSet start fuel d (path ++ [current]) (visited ++ [current]))
        deps

/-- `reconstructCyclePath`: a DFS traversal through the SCC, with the
`[...scc, scc[0]]` fallback when no closed path is found. -/
def reconstructCyclePath (scc : List String) (g : DependencyGraph) : List String :=
  match scc with
  | [] => []
  | [x] => [x, x]
  | start :: _ =>
    let res := reconDfs g scc start (g.nodes.length + 1) start [] []
    match res with
    | some p =>
      if p.length ≤ 1 ∨ p.getLast? ≠ some start then scc ++ [start] else p
    | none => scc ++ [start]

/-- `findCycles`: self-loops (scanned explicitly) followed by one cycle per
multi-node SCC, whose `length` field is the SCC size. -/
def findCycles (g : DependencyGraph) : List CircularDependency :=
  let sccs := findStronglyConnectedComponents g
  let cyclicSccs := sccs.filter (fun s => s.length > 1)
  let selfLoops : List CircularDependency :=
    (g.getNodes.filter (fun n => (g.getDependencies n).contains n)).map
      (fun n => ⟨[n, n], 1⟩)
  let cycles : List CircularDependency :=
    cyclicSccs.map (fun scc => ⟨reconstructCyclePath scc g, scc.length⟩)
  selfLoops ++ cycles

/-- Number of graph nodes not yet assigned a Tarjan index. -/
def unassigned (g : DependencyGraph) (st : TarjanState) : Nat :=
  (g.getNodes.filter (fun v => (aGet st.indices v).isNone)).length

/-- Precondition of `strongConnect` on an acyclic run: `v` is an unvisited
node, the fuel exceeds the number of unvisited nodes, lowlinks mirror
indices, the on-stack set mirrors the stack, every stacked node is
assigned, and every stacked node reaches `v`. -/
structure TarjanPre (g : DependencyGraph) (st : TarjanState) (v : String) (fuel : Nat) : Prop where
  v_node : v ∈ g.getNodes
  v_unassigned : aGet st.indices v = none
  fuel_ok : unassigned g st < fuel
  idx_bound : ∀ w i, aGet st.indices w = some i → i < st.index
  low_eq : ∀ w i, aGet st.indices w = some i → aGet st.lowlinks w = some i
  onStack_iff : ∀ w, w ∈ st.onStack ↔ w ∈ st.stack
  stack_assigned : ∀ w, w ∈ st.stack → (aGet st.indices w).isSome = true
  stack_reaches : ∀ w, w ∈ st.stack → ReachStar g w v

/-- Postcondition of `strongConnect` on an acyclic run: the stack returns
to its entry state, the invariants persist, `v` received index `st.index`,
the unvisited count strictly drops, and only singleton SCCs were emitted. -/
structure TarjanPost (g : DependencyGraph) (st st' : TarjanState) (v : String) : Prop where
  stack_eq : st'.stack = st.stack
  onStack_iff : ∀ w, w ∈ st'.onStack ↔ w ∈ st'.stack
  stack_assigned : ∀ w, w ∈ st'.stack → (aGet st'.indices w).isSome = true
  idx_bound : ∀ w i, aGet st'.indices w = some i → i < st'.index
  low_eq : ∀ w i, aGet st'.indices w = some i → aGet st'.lowlinks w = some i
  index_gt : st.index < st'.index
  idx_mono : ∀ w i, aGet st.indices w = some i → aGet st'.indices w = some i
  idx_v : aGet st'.indices v = some st.index
  unassigned_lt : unassigned g st' < unassigned g st
  sccs_app : ∀ s, s ∈ st'.sccs → s ∈ st.sccs ∨ ∃ x, s = [x]

/-- Invariant holding while the successor loop of `strongConnect g _ v st`
runs: `v` sits on top of the entry stack and keeps lowlink = index =
`st.index`. -/
structure TarjanMid (g : DependencyGraph) (st : TarjanState) (v : String) (acc : TarjanState) : Prop where
  stack_eq : acc.stack = v :: st.stack
  onStack_iff : ∀ w, w ∈ acc.onStack ↔ w ∈ acc.stack
  stack_assigned : ∀ w, w ∈ acc.stack → (aGet acc.indices w).isSome = true
  idx_bound : ∀ w i, aGet acc.indices w = some i → i < acc.index
  low_eq : ∀ w i, aGet acc.indices w = some i → aGet acc.lowlinks w = some i
  index_gt : st.index < acc.index
  idx_mono : ∀ w i, aGet st.indices w = some i → aGet acc.indices w = some i
  idx_v : aGet acc.indices v = some st.index
  unassigned_lt : unassigned g acc < unassigned g st
  sccs_app : ∀ s, s ∈ acc.sccs → s ∈ st.sccs ∨ ∃ x, s = [x]

/-- Invariant of the top-level loop of `findStronglyConnectedComponents`
on an acyclic graph: the stack is empty between calls and only singleton
SCCs have been emitted. -/
structure TarjanTop (g : DependencyGraph) (st : TarjanState) : Prop where
  stack_nil : st.stack = []
  onStack_iff : ∀ w, w ∈ st.onStack ↔ w ∈ st.stack
  idx_bound : ∀ w i, aGet st.indices w = some i → i < st.index
  low_eq : ∀ w i, aGet st.indices w = some i → aGet st.lowlinks w = some i
  sccs_singleton : ∀ s, s ∈ st.sccs → ∃ x, s = [x]

/-! ## Cycle-breaking suggestions (`suggestions.ts`) -/

/-- One suggestion (`CycleSuggestion`); `targetEdge` is `none` when the JS
object carries no (or an undefined) edge. -/
structure CycleSuggestion where
  type : String
  description : String
  targetEdge : Option (String × String)
deriving Repr, DecidableEq

/-- Edge analysis record (`EdgeAnalysis`). -/
structure EdgeAnalysis where
  edge : String × String
  strength : Nat
  likelyTypeImport : Bool
deriving Repr, DecidableEq

/-- `getEdgesFromCycle`: consecutive pairs of the chain. -/
def getEdgesFromCycle (cycle : CircularDependency) : List (String × String) :=
  cycle.chain.zip cycle.chain.tail

/-- `analyzeEdge`: binary strength proxy plus the type-import heuristic. -/
def analyzeEdge (edge : String × String) (g : DependencyGraph) : EdgeAnalysis :=
  let allDeps := g.getDependencies edge.1
  let strength := if allDeps.length > 0 then 1 else 0
  let likelyTypeImport :=
    containsSub edge.2 "types" || containsSub edge.2 ".d.ts" ||
    containsSub edge.2 "interfaces" || containsSub edge.2 "models"
  ⟨edge, strength, likelyTypeImport⟩

/-- The comparator passed to `sort` in `findWeakestLink`. -/
def weakCmp (a b : EdgeAnalysis) : Int :=
  if a.likelyTypeImport && !b.likelyTypeImport then -1
  else if !a.likelyTypeImport && b.likelyTypeImport then 1
  else (a.strength : Int) - (b.strength : Int)

/-- Stable insertion for a JS-style comparator (ties keep original order). -/
def sortInsert {α : Type} (cmp : α → α → Int) (x : α) : List α → List α
  | [] => [x]
  | y :: rest => if cmp x y ≤ 0 then x :: y :: rest else y :: sortInsert cmp x rest

/-- A stable sort for a JS-style comparator (V8's `Array.sort` is stable). -/
def stableSort {α : Type} (cmp : α → α → Int) : List α → List α
  | [] => []
  | x :: rest => sortInsert cmp x (stableSort cmp rest)

/-- `findWeakestLink`: the minimum of the comparator, earliest on ties. -/
def findWeakestLink (analyses : List EdgeAnalysis) : Option EdgeAnalysis :=
  match analyses with
  | [] => none
  | [a] => some a
  | _ => (stableSort weakCmp analyses).head?

/-- `getFileName`: final path segment for display. -/
def getFileName (filePath : String) : String :=
  ((strSplit '/' filePath).getLast?).getD ""

/-- `generateCycleSuggestions`, translated branch by branch. -/
def generateCycleSuggestions (cycle : CircularDependency) (g : DependencyGraph) :
    List CycleSuggestion :=
  let chainWithoutLoop := cycle.chain.dropLast
  if cycle.length = 1 then
    [⟨"reorder-imports",
      "This file imports itself. Refactor to remove the self-reference.",
      chainWithoutLoop.head?.map (fun p => (p, p))⟩]
  else
    let edges := getEdgesFromCycle cycle
    let edgeAnalyses := edges.map (fun e => analyzeEdge e g)
    let weakestLink := findWeakestLink edgeAnalyses
    let base :=
      if cycle.length = 2 then
        [⟨"extract-interface",
          "Extract shared types/interfaces to a new file that both can import. This is the most common fix for 2-file cycles.",
          weakestLink.map (fun wl => wl.edge)⟩,
         ⟨"merge-files",
          "If these files are tightly coupled, consider merging them into a single module.",
          none⟩]
      else
        (match weakestLink with
         | some wl =>
           [⟨"extract-interface",
             "The weakest link is " ++ getFileName wl.edge.1 ++ " → " ++ getFileName wl.edge.2 ++
               " (fewest imports). Extract the shared dependency to break the cycle here.",
             some wl.edge⟩]
         | none => []) ++
        [⟨"dependency-injection",
          "Consider using dependency injection instead of direct imports. Pass dependencies as parameters rather than importing them directly.",
          weakestLink.map (fun wl => wl.edge)⟩]
    let withLazy := base ++
      [⟨"lazy-import",
        "Use dynamic imports (import()) to lazily load dependencies at runtime, breaking the static cycle.",
        weakestLink.map (fun wl => wl.edge)⟩]
    if cycle.length ≥ 4 then
      withLazy ++
        [⟨"reorder-imports",
          "This is a long cycle (" ++ toString cycle.length ++
            " files). Consider reviewing your module architecture. Long cycles often indicate unclear module boundaries.",
          none⟩]
    else withLazy

/-! ## Parse cache (`cache.ts`) -/

/-- A cache entry: content hash plus the imports parsed at that hash. -/
structure CacheEntry where
  hash : String
  imports : List ImportInfo
deriving Repr, DecidableEq

/-- The in-memory parse cache (`ParseCache`). -/
structure ParseCache where
  cache : List (String × CacheEntry) := []
  hits : Nat := 0
  misses : Nat := 0
deriving Repr, DecidableEq

/-- `ParseCache.get`: the cached imports when the hash matches, with the
hit/miss counters updated. -/
def ParseCache.get (c : ParseCache) (filePath contentHash : String) :
    Option (List ImportInfo) × ParseCache :=
  match aGet c.cache filePath with
  | some entry =>
    if entry.hash = contentHash then (some entry.imports, { c with hits := c.hits + 1 })
    else (none, { c with misses := c.misses + 1 })
  | none => (none, { c with misses := c.misses + 1 })

/-- `ParseCache.set`. -/
def ParseCache.set (c : ParseCache) (filePath contentHash : String)
    (imports : List ImportInfo) : ParseCache :=
  { c with cache := aSet c.cache filePath ⟨contentHash, imports⟩ }

/-! ## Tree-sitter import extraction (`parser.ts`)

The concrete syntax tree is embedded as a mutual inductive so that the
traversals are structural (and hence kernel-evaluable).  `fields` holds the
named children (`childForFieldName`), `children` the ordered child list. -/

mutual
inductive SNode where
  | mk (ntype : String) (text : String) (fields : SFields) (children : SList) (row : Nat)
inductive SFields where
  | nil
  | cons (key : String) (val : SNode) (rest : SFields)
inductive SList where
  | nil
  | cons (hd : SNode) (tl : SList)
end

/-- Grammar node type. -/
def SNode.ntype : SNode → String
  | .mk t _ _ _ _ => t

/-- Source text of the node. -/
def SNode.text : SNode → String
  | .mk _ x _ _ _ => x

/-- Named children. -/
def SNode.fields : SNode → SFields
  | .mk _ _ f _ _ => f

/-- Ordered child list. -/
def SNode.children : SNode → SList
  | .mk _ _ _ c _ => c

/-- 0-indexed start row. -/
def SNode.row : SNode → Nat
  | .mk _ _ _ _ r => r

/-- `childForFieldName`. -/
def SFields.get : SFields → String → Option SNode
  | .nil, _ => none
  | .cons k v rest, j => if j = k then some v else SFields.get rest j

/-- `children.find(...)`. -/
def SList.sfind (p : SNode → Bool) : SList → Option SNode
  | .nil => none
  | .cons hd tl => if p hd then some hd else SList.sfind p tl

/-- `children.some(...)`. -/
def SList.sany (p : SNode → Bool) : SList → Bool
  | .nil => false
  | .cons hd tl => p hd || SList.sany p tl

/-- `extractStringValue`: strip one matching pair of quotes or backticks. -/
def extractStringValue (n : SNode) : String :=
  let text := n.text
  let dq : Char := Char.ofNat 34
  let sq : Char := Char.ofNat 39
  let bt : Char := Char.ofNat 96
  let hd := text.data.head?
  let lst := text.data.getLast?
  let strip := String.mk ((text.data.drop 1).dropLast)
  if (hd = some dq ∧ lst = some dq) ∨ (hd = some sq ∧ lst = some sq) then strip
  else if hd = some bt ∧ lst = some bt then strip
  else text

mutual
/-- The `traverse` of `extractImportSpecifiers`: `parentType` is the type of
the node's parent (the source inspects `n.parent`). -/
def specsGo (parentType : String) (n : SNode) : List String :=
  match n with
  | .mk t txt fields children _ =>
    (if t = "identifier" then
      (if parentType = "import_clause" then [txt] else [])
     else if t = "import_specifier" then
      (match fields.get "alias" with
       | some a => [a.text]
       | none =>
         match fields.get "name" with
         | some nm => [nm.text]
         | none =>
           match children.sfind (fun c => c.ntype = "identifier") with
           | some idc => [idc.text]
           | none => [])
     else if t = "namespace_import" then
      (match children.sfind (fun c => c.ntype = "identifier") with
       | some a => ["* as " ++ a.text]
       | none => [])
     else []) ++ specsGoList t children

/-- Child recursion of `specsGo`. -/
def specsGoList (parentType : String) : SList → List String
  | .nil => []
  | .cons hd tl => specsGo parentType hd ++ specsGoList parentType tl
end

/-- `extractImportSpecifiers`, called on an `import_clause` node. -/
def extractImportSpecifiers (n : SNode) : List String :=
  specsGo "import_statement" n

/-- Specifiers of a destructuring `object_pattern` in a `require` binding. -/
def patSpecs : SList → List String
  | .nil => []
  | .cons c rest =>
    (if c.ntype = "shorthand_property_identifier_pattern" ∨
        c.ntype = "shorthand_property_identifier" then [c.text]
     else if c.ntype = "pair_pattern" then
       match c.fields.get "value" with
       | some v => if v.ntype = "identifier" then [v.text] else []
       | none => []
     else []) ++ patSpecs rest

/-- Specifiers of an `export_clause`. -/
def expSpecs : SList → List String
  | .nil => []
  | .cons c rest =>
    (if c.ntype = "export_specifier" then
      match c.fields.get "name" with
      | some nm => [nm.text]
      | none => []
     else []) ++ expSpecs rest

/-- The records the traversal emits at one node (before recursing into its
children); `parent?` is the node's parent, used by the `require` case. -/
def ownRecords (parent? : Option SNode) (n : SNode) : List ImportInfo :=
  let r1 :=
    if n.ntype = "import_statement" then
      match
        (match n.fields.get "source" with
         | some s => some s
         | none => n.children.sfind (fun c => c.ntype = "string")) with
      | some sourceNode =>
        let src := extractStringValue sourceNode
        let specifiers :=
          match n.children.sfind (fun c => c.ntype = "import_clause") with
          | some ic => extractImportSpecifiers ic
          | none => []
        [⟨src, specifiers, "esm", n.row + 1⟩]
      | none => []
    else []
  let r2 :=
    if n.ntype = "call_expression" then
      match n.fields.get "function" with
      | some fn =>
        if fn.ntype = "import" then
          match n.fields.get "arguments" with
          | some args =>
            match args.children.sfind (fun c => c.ntype = "string") with
            | some firstArg => [⟨extractStringValue firstArg, [], "esm", n.row + 1⟩]
            | none => []
          | none => []
        else []
      | none => []
    else []
  let r3 :=
    if n.ntype = "call_expression" then
      match n.fields.get "function" with
      | some fn =>
        if fn.ntype = "identifier" ∧ fn.text = "require" then
          match n.fields.get "arguments" with
          | some args =>
            match args.children.sfind (fun c => c.ntype = "string") with
            | some firstArg =>
              let specifiers :=
                match parent? with
                | some par =>
                  if par.ntype = "variable_declarator" then
                    match par.fields.get "name" with
                    | some nameNode =>
                      if nameNode.ntype = "object_pattern" then patSpecs nameNode.children
                      else if nameNode.ntype = "identifier" then [nameNode.text]
                      else []
                    | none => []
                  else []
                | none => []
              [⟨extractStringValue firstArg, specifiers, "cjs", n.row + 1⟩]
            | none => []
          | none => []
        else []
      | none => []
    else []
  let r4 :=
    if n.ntype = "export_statement" then
      match
        (match n.fields.get "source" with
         | some s => some s
         | none => n.children.sfind (fun c => c.ntype = "string")) with
      | some sourceNode =>
        let src := extractStringValue sourceNode
        let baseSpecs :=
          match n.children.sfind (fun c => c.ntype = "export_clause") with
          | some ec => expSpecs ec.children
          | none => []
        let specifiers :=
          baseSpecs ++ (if n.children.sany (fun c => c.text = "*") then ["*"] else [])
        [⟨src, specifiers, "esm", n.row + 1⟩]
      | none => []
    else []
  r1 ++ r2 ++ r3 ++ r4

mutual
/-- Depth-first emission order of `extractImportsFromTree`. -/
def extractGo (parent? : Option SNode) (n : SNode) : List ImportInfo :=
  match n with
  | .mk t txt fields children r =>
    ownRecords parent? (.mk t txt fields children r) ++
      extractGoList (some (.mk t txt fields children r)) children

/-- Child recursion of `extractGo`. -/
def extractGoList (parent? : Option SNode) : SList → List ImportInfo
  | .nil => []
  | .cons hd tl => extractGo parent? hd ++ extractGoList parent? tl
end

/-- `extractImportsFromTree`, started at the root node (whose parent is null). -/
def extractImportsFromTree (root : SNode) : List ImportInfo :=
  extractGo none root

/-! ## Directory analyzer and specifier resolver (`analyzer.ts`, `types.ts`) -/

/-- `extensionToLanguage` from `types.ts`. -/
def extensionToLanguage : List (String × String) :=
  [(".ts", "typescript"), (".tsx", "tsx"), (".js", "javascript"), (".jsx", "jsx"),
   (".mjs", "javascript"), (".cjs", "javascript"), (".mts", "typescript"), (".cts", "typescript")]

/-- `DEFAULT_EXTENSIONS`. -/
def DEFAULT_EXTENSIONS : List String :=
  [".ts", ".tsx", ".js", ".jsx", ".mjs", ".cjs", ".mts", ".cts"]

/-- `DEFAULT_IGNORE_DIRS`. -/
def DEFAULT_IGNORE_DIRS : List String :=
  ["node_modules", "dist", "build", ".git", "coverage", ".next", ".nuxt"]

/-- `getLanguageForFile`: language keyed by lowercased extension. -/
def getLanguageForFile (filePath : String) : Option String :=
  aGet extensionToLanguage (toLowerStr (extname filePath))

/-- `isSupportedFile`. -/
def isSupportedFile (filePath : String) : Bool :=
  (getLanguageForFile filePath).isSome

/-- `AnalyzerOptions` (the fields the resolver and discovery consult). -/
structure AnalyzerOptions where
  extensions : Option (List String) := none
  ignoreDirs : Option (List String) := none
  ignorePatterns : Option (List String) := none
  pathAliases : Option (List (String × List String)) := none
  baseUrl : Option String := none
deriving Repr

/-- One `readdir` entry with its `Dirent` type flags. -/
structure DirEntry where
  name : String
  isDir : Bool
  isFile : Bool
deriving Repr, DecidableEq

/-- The file system visible to the analyzer: `dirs` is the `readdir` table
(a missing key means `readdir` throws), `files` the set of paths for which
`stat(...).isFile()` holds. -/
structure FileSystem where
  dirs : List (String × List DirEntry) := []
  files : List String := []
deriving Repr, DecidableEq

/-- `fileExists`: the `stat` probe, `false` when `stat` throws. -/
def fileExists (fs : FileSystem) (filePath : String) : Bool :=
  fs.files.contains filePath

/-- The regex produced by `shouldIgnore` for a `*` pattern: `*` matches any
run of characters (`.*`), `?` exactly one (`.`), anchored at both ends. -/
def globMatch : List Char → List Char → Bool
  | [], [] => true
  | [], _ :: _ => false
  | c :: ps, s =>
    if c = '*' then
      globMatch ps s ||
        (match s with
         | [] => false
         | _ :: s' => globMatch ('*' :: ps) s')
    else
      match s with
      | [] => false
      | d :: s' => (c = '?' || c = d) && globMatch ps s'
termination_by p s => (p.length, s.length)

/-- `shouldIgnore`: each pattern is tried against the full path and the
basename; patterns without `*` use substring-or-exact-basename matching. -/
def shouldIgnore (filePath : String) (patterns : List String) : Bool :=
  patterns.any (fun pattern =>
    if pattern.data.contains '*' then
      globMatch pattern.data filePath.data || globMatch pattern.data (basename filePath).data
    else
      containsSub filePath pattern || basename filePath = pattern)

/-- The recursive walk of `discoverFilesConcurrent`; a failed `readdir`
silently contributes nothing.  Files of the current directory are listed
before the recursive results, subdirectories in entry order. -/
def walkFiles (fs : FileSystem) (extensions ignoreDirs ignorePatterns : List String) :
    Nat → String → List String
  | 0, _ => []
  | fuel + 1, currentPath =>
    match aGet fs.dirs currentPath with
    | none => []
    | some entries =>
      let directories := entries.filter (fun e =>
        e.isDir && !ignoreDirs.contains e.name &&
          !shouldIgnore (pathJoin currentPath e.name) ignorePatterns)
      let regularFiles := entries.filter (fun e =>
        e.isFile && extensions.contains (toLowerStr (extname e.name)) && isSupportedFile e.name &&
          !shouldIgnore (pathJoin currentPath e.name) ignorePatterns)
      regularFiles.map (fun e => pathJoin currentPath e.name) ++
        (directories.map (fun e =>
          walkFiles fs extensions ignoreDirs ignorePatterns fuel (pathJoin currentPath e.name))).flatten

/-- `discoverFilesConcurrent` with enough fuel for any proper directory tree. -/
def discoverFilesConcurrent (fs : FileSystem)
    (dirPath : String) (extensions ignoreDirs ignorePatterns : List String) : List String :=
  walkFiles fs extensions ignoreDirs ignorePatterns (fs.dirs.length + 1) dirPath

/-- `isExternalImport`, verbatim from the source: relative and absolute
specifiers are internal; `@`-scoped specifiers are external as soon as they
contain a slash; all remaining bare specifiers are external. -/
def isExternalImport (importSource : String) : Bool :=
  if startsWithStr importSource "." then false
  else if startsWithStr importSource "/" then false
  else if startsWithStr importSource "@" then
    decide ((strSplit '/' importSource).length ≥ 2)
  else
    !containsSub importSource "/" || !startsWithStr importSource "/"

/-- `resolvePathAlias`: first matching pattern wins; inside a pattern the
first replacement is returned unconditionally. -/
def resolvePathAlias (importSource : String) (aliases : List (String × List String))
    (baseUrl : String) : Option String :=
  firstSome
    (fun pr =>
      let pattern := pr.1
      if endsWithStr pattern "/*" then
        let pre := dropRightStr pattern 2
        if startsWithStr importSource (pre ++ "/") then
          let rest := dropLeftStr importSource (pre.length + 1)
          firstSome
            (fun replacement =>
              let replacementBase :=
                if endsWithStr replacement "/*" then dropRightStr replacement 2 else replacement
              some (pathResolve3 baseUrl replacementBase rest))
            pr.2
        else none
      else if importSource = pattern || startsWithStr importSource (pattern ++ "/") then
        firstSome
          (fun replacement =>
            some (pathResolve baseUrl (replacement ++ dropLeftStr importSource pattern.length)))
          pr.2
      else none)
    aliases

/-- `tryResolve`: exact file, declared extensions, index files, then the
compiled-extension remap for specifiers ending in `.js`. -/
def tryResolve (fs : FileSystem) (targetPath : String) (extensions : List String) :
    Option String :=
  if fileExists fs targetPath then some targetPath
  else
    match firstSome
        (fun ext => if fileExists fs (targetPath ++ ext) then some (targetPath ++ ext) else none)
        extensions with
    | some p => some p
    | none =>
      match firstSome
          (fun ext =>
            let indexPath := pathJoin targetPath ("index" ++ ext)
            if fileExists fs indexPath then some indexPath else none)
          extensions with
      | some p => some p
      | none =>
        if endsWithStr targetPath ".js" then
          let tsPath := dropRightStr targetPath 3 ++ ".ts"
          if fileExists fs tsPath then some tsPath
          else
            let tsxPath := dropRightStr targetPath 3 ++ ".tsx"
            if fileExists fs tsxPath then some tsxPath else none
        else none

/-- `resolveImport`: external filter, path aliases, relative, base-URL, root. -/
def resolveImport (fs : FileSystem) (fromFile importSource rootDir : String)
    (extensions : List String) (options : AnalyzerOptions) : Option String :=
  if isExternalImport importSource then none
  else
    let aliasTry :=
      match options.pathAliases with
      | some aliases =>
        match resolvePathAlias importSource aliases (options.baseUrl.getD rootDir) with
        | some aliasResolved => tryResolve fs aliasResolved extensions
        | none => none
      | none => none
    match aliasTry with
    | some r => some r
    | none =>
      if startsWithStr importSource "." then
        tryResolve fs (pathResolve (dirname fromFile) importSource) extensions
      else
        match options.baseUrl with
        | some bu =>
          (match tryResolve fs (pathResolve bu importSource) extensions with
           | some r => some r
           | none => tryResolve fs (pathResolve rootDir importSource) extensions)
        | none => tryResolve fs (pathResolve rootDir importSource) extensions

/-- `getTopDependencies`: files sorted by outgoing count, descending, stable. -/
def DependencyGraph.getTopDependencies (g : DependencyGraph) (limit : Nat) :
    List (String × Nat) :=
  (stableSort (fun a b => (b.2 : Int) - (a.2 : Int))
    (g.nodes.map (fun p => (p.1, p.2.dependencies.length)))).take limit

/-- `getTopDependents`. -/
def DependencyGraph.getTopDependents (g : DependencyGraph) (limit : Nat) :
    List (String × Nat) :=
  (stableSort (fun a b => (b.2 : Int) - (a.2 : Int))
    (g.nodes.map (fun p => (p.1, p.2.dependents.length)))).take limit

/-- `AnalysisStats` (duration omitted: wall-clock time is not modelled). -/
structure AnalysisStats where
  totalFiles : Nat
  totalDependencies : Nat
  circularDependencies : Nat
  topDependencies : List (String × Nat)
  topDependents : List (String × Nat)
deriving Repr, DecidableEq

/-- `AnalysisResult`. -/
structure AnalysisResult where
  graph : DependencyGraph
  cycles : List CircularDependency
  stats : AnalysisStats
  errors : List (String × String)
  rootDir : String
deriving Repr, DecidableEq

/-- `analyzeDirectory`.  Reading-plus-parsing one file is abstracted by the
oracle `importsOf` (an `Except` mirrors a per-file parse failure); batches
complete in submission order, so edge insertion follows file order. -/
def analyzeDirectory (fs : FileSystem) (importsOf : String → Except String (List ImportInfo))
    (dirPath : String) (options : AnalyzerOptions) : AnalysisResult :=
  let rootDir := normAbs dirPath
  let extensions := options.extensions.getD DEFAULT_EXTENSIONS
  let ignoreDirs := options.ignoreDirs.getD DEFAULT_IGNORE_DIRS
  let ignorePatterns := options.ignorePatterns.getD []
  let files := discoverFilesConcurrent fs rootDir extensions ignoreDirs ignorePatterns
  let g0 := files.foldl (fun g f => g.addNode f) (DependencyGraph.mk [] rootDir)
  let step := fun (acc : DependencyGraph × List (String × String)) (file : String) =>
    match importsOf file with
    | .error e => (acc.1, acc.2 ++ [(file, e)])
    | .ok imports =>
      (imports.foldl
        (fun gg importInfo =>
          match resolveImport fs file importInfo.source rootDir extensions options with
          | some resolvedPath => gg.addEdge file resolvedPath
          | none => gg)
        acc.1, acc.2)
  let built := files.foldl step (g0, [])
  let g1 := built.1
  let errors := built.2
  let cycles := findCycles g1
  let stats : AnalysisStats :=
    ⟨g1.nodeCount, g1.edgeCount, cycles.length,
      g1.getTopDependencies 10, g1.getTopDependents 10⟩
  ⟨g1, cycles, stats, errors, rootDir⟩

/-! ## Concrete instances used by the claims -/

/-- A graph whose 3-node SCC contains the shorter sub-cycle `c → a → c`:
edges `a → b`, `a → c`, `b → a`, `c → a`. -/
def gC2 : DependencyGraph :=
  ((((DependencyGraph.mk [] "").addEdge "a" "b").addEdge "a" "c").addEdge "b" "a").addEdge "c" "a"

/-- A file system holding `/r/src/app.ts` and `/r/src/a.ts`. -/
def fsC1 : FileSystem := ⟨[], ["/r/src/app.ts", "/r/src/a.ts"]⟩

/-- Options with the tsconfig-style alias `@/* → src/*` and `baseUrl = /r`. -/
def optsC1 : AnalyzerOptions := { pathAliases := some [("@/*", ["src/*"])], baseUrl := some "/r" }

/-- A file system where `src/a.ts` exists together with `src/b.ts` only. -/
def fsC8 : FileSystem := ⟨[], ["/r/src/a.ts", "/r/src/b.ts"]⟩

/-- A directory with one analyzable file and a `data.json` next to it. -/
def fsC10 : FileSystem :=
  ⟨[("/r", [⟨"a.ts", false, true⟩, ⟨"data.json", false, true⟩])], ["/r/a.ts", "/r/data.json"]⟩

/-- Parse oracle: `/r/a.ts` imports `./data.json`. -/
def orcC10 : String → Except String (List ImportInfo) :=
  fun f => if f = "/r/a.ts" then .ok [⟨"./data.json", [], "esm", 1⟩] else .ok []

/-- The tree-sitter `string` node for an empty string literal. -/
def strEmptyNode : SNode := .mk "string" "\x27\x27" .nil .nil 0

/-- The syntax tree of the source text `import '';`. -/
def importEmptyTree : SNode :=
  .mk "program" "" .nil
    (.cons (.mk "import_statement" "" (.cons "source" strEmptyNode .nil)
      (.cons strEmptyNode .nil) 0) .nil) 0

/-- A two-node cyclic graph on `/x/a.ts` and `/x/b.ts`. -/
def g2 : DependencyGraph :=
  ((DependencyGraph.mk [] "").addEdge "/x/a.ts" "/x/b.ts").addEdge "/x/b.ts" "/x/a.ts"

/-- A single node with no edges: trivially acyclic. -/
def gAcy : DependencyGraph := (DependencyGraph.mk [] "").addNode "a"

/-! ## Association-list lemmas -/

/-- Lookup across an append: the left map wins. -/
theorem aGet_append {α : Type} (m m' : List (String × α)) (j : String) :
    aGet (m ++ m') j = match aGet m j with | some x => some x | none => aGet m' j := by
  induction m with
  | nil => simp [aGet]
  | cons p rest ih =>
    obtain ⟨k, v⟩ := p
    by_cases h : j = k <;> simp [aGet, h, ih]

/-- Lookup after a point update keyed by `k`. -/
theorem aGet_pmap {α : Type} (m : List (String × α)) (k : String) (f : α → α) (j : String) :
    aGet (m.map (fun p => if p.1 = k then (p.1, f p.2) else p)) j =
      if j = k then (aGet m j).map f else aGet m j := by
  induction m with
  | nil => by_cases h : j = k <;> simp [aGet, h]
  | cons p rest ih =>
    obtain ⟨k', v'⟩ := p
    simp only [List.map_cons]
    by_cases hk : k' = k
    · subst hk
      rw [show (if (k', v').1 = k' then ((k', v').1, f (k', v').2) else (k', v')) = (k', f v') from by simp]
      by_cases hj : j = k' <;> simp [aGet, hj, ih]
    · rw [show (if (k', v').1 = k then ((k', v').1, f (k', v').2) else (k', v')) = (k', v') from by simp [hk]]
      by_cases hj : j = k'
      · subst hj
        simp [aGet, hk]
      · simp [aGet, hj, ih]

/-- Lookup after `aSet`. -/
theorem aGet_aSet {α : Type} (m : List (String × α)) (k : String) (v : α) (j : String) :
    aGet (aSet m k v) j = if j = k then some v else aGet m j := by
  unfold aSet
  by_cases hs : (aGet m k).isSome
  · rw [if_pos hs]
    have := aGet_pmap m k (fun _ => v) j
    rw [this]
    by_cases hj : j = k
    · subst hj
      obtain ⟨x, hx⟩ := Option.isSome_iff_exists.mp hs
      simp [hx]
    · simp [hj]
  · rw [if_neg hs]
    rw [aGet_append]
    by_cases hj : j = k
    · subst hj
      have : aGet m j = none := by
        cases h : aGet m j with
        | none => rfl
        | some x => rw [h] at hs; simp at hs
      simp [this, aGet]
    · cases h : aGet m j with
      | none => simp [aGet, hj]
      | some x => simp [hj]

/-- Lookup after `aDel`. -/
theorem aGet_aDel {α : Type} (m : List (String × α)) (k j : String) :
    aGet (aDel m k) j = if j = k then none else aGet m j := by
  induction m with
  | nil => by_cases h : j = k <;> simp [aDel, aGet, h]
  | cons p rest ih =>
    obtain ⟨k', v'⟩ := p
    by_cases hk : k' = k
    · subst hk
      by_cases hj : j = k'
      · subst hj
        simpa [aDel, aGet] using ih
      · simpa [aDel, aGet, hj] using ih
    · by_cases hj : j = k'
      · subst hj
        simp [aDel, aGet, hk, Ne.symm hk]
      · simpa [aDel, aGet, hj, hk] using ih

/-- `firstSome` of an everywhere-`none` function. -/
theorem firstSome_eq_none {α β : Type} (f : α → Option β) (l : List α)
    (h : ∀ a ∈ l, f a = none) : firstSome f l = none := by
  induction l with
  | nil => rfl
  | cons a rest ih =>
    have ha := h a (by simp)
    simp only [firstSome, ha]
    exact ih (fun x hx => h x (by simp [hx]))

/-! ## Claim theorems -/

/-- C1: the specifier `@/a` is classified as an external scoped package by
`isExternalImport` and rejected by `resolveImport` before path aliases are
ever consulted, even though the alias table `@/* → src/*` with
`baseUrl = /r` maps it to `/r/src/a`, and `/r/src/a.ts` exists and would be
found by the file-existence probe.  This contradicts the spec (and the
source's own comment "unless it matches a path alias pattern"): alias
resolution is dead for every `@`-scoped specifier. -/
theorem c1_alias_never_consulted :
    isExternalImport "@/a" = true ∧
    fileExists fsC1 "/r/src/a.ts" = true ∧
    resolvePathAlias "@/a" [("@/*", ["src/*"])] "/r" = some "/r/src/a" ∧
    tryResolve fsC1 "/r/src/a" DEFAULT_EXTENSIONS = some "/r/src/a.ts" ∧
    resolveImport fsC1 "/r/src/app.ts" "@/a" "/r" DEFAULT_EXTENSIONS optsC1 = none := by
  refine ⟨by decide, by decide, by decide, by decide, by decide⟩

/-- C9: cache round trip.  After `put(p, h, R)`, `get(p, h)` returns `R`,
and `get(p, h')` returns nothing for every `h' ≠ h`. -/
theorem c9_cache_round_trip (c : ParseCache) (p h : String) (R : List ImportInfo) :
    (((c.set p h R).get p h).1 = some R) ∧
    (∀ h', h' ≠ h → (((c.set p h R).get p h').1 = none)) := by
  constructor
  · unfold ParseCache.set ParseCache.get
    simp [aGet_aSet]
  · intro h' hne
    unfold ParseCache.set ParseCache.get
    simp [aGet_aSet, Ne.symm hne]

/-- C9 witness at a concrete cache, path, hashes and record list. -/
theorem c9_cache_round_trip_witness :
    ((("h2" : String) ≠ "h1") ∧
      ((((ParseCache.mk [] 0 0).set "p" "h1" []).get "p" "h2").1 = none)) :=
  ⟨by decide, (c9_cache_round_trip (ParseCache.mk [] 0 0) "p" "h1" []).2 "h2" (by decide)⟩

/-- C8: for a candidate path ending in `.js` on which the verbatim probe,
every extension probe and every index probe fail, `tryResolve` tries the
`.ts` remap then the `.tsx` remap and returns the first that exists; and
concretely, when `src/a.ts` imports `./b.js` and only `src/b.ts` exists,
the resolver produces `src/b.ts`. -/
theorem c8_compiled_extension_remap :
    (∀ (fs : FileSystem) (P : String) (exts : List String),
      endsWithStr P ".js" = true →
      fileExists fs P = false →
      (∀ e ∈ exts, fileExists fs (P ++ e) = false) →
      (∀ e ∈ exts, fileExists fs (pathJoin P ("index" ++ e)) = false) →
      tryResolve fs P exts =
        (if fileExists fs (dropRightStr P 3 ++ ".ts") then some (dropRightStr P 3 ++ ".ts")
         else if fileExists fs (dropRightStr P 3 ++ ".tsx") then some (dropRightStr P 3 ++ ".tsx")
         else none)) ∧
    resolveImport fsC8 "/r/src/a.ts" "./b.js" "/r" DEFAULT_EXTENSIONS {} = some "/r/src/b.ts" := by
  constructor
  · intro fs P exts hjs hP hExt hIdx
    unfold tryResolve
    rw [hP]
    have h1 : firstSome
        (fun ext => if fileExists fs (P ++ ext) then some (P ++ ext) else none) exts = none := by
      apply firstSome_eq_none
      intro e he
      simp [hExt e he]
    have h2 : firstSome
        (fun ext =>
          let indexPath := pathJoin P ("index" ++ ext)
          if fileExists fs indexPath then some indexPath else none) exts = none := by
      apply firstSome_eq_none
      intro e he
      simp [hIdx e he]
    simp only [h1, h2, hjs, Bool.false_eq_true, if_false, if_true]
  · decide

/-- C8 witness: the universal part applied at the concrete remap scenario. -/
theorem c8_compiled_extension_remap_witness :
    tryResolve fsC8 "/r/src/b.js" DEFAULT_EXTENSIONS =
      (if fileExists fsC8 (dropRightStr "/r/src/b.js" 3 ++ ".ts")
       then some (dropRightStr "/r/src/b.js" 3 ++ ".ts")
       else if fileExists fsC8 (dropRightStr "/r/src/b.js" 3 ++ ".tsx")
       then some (dropRightStr "/r/src/b.js" 3 ++ ".tsx")
       else none) :=
  c8_compiled_extension_remap.1 fsC8 "/r/src/b.js" DEFAULT_EXTENSIONS
    (by decide) (by decide) (by decide) (by decide)

/-- C10: a relative specifier whose resolved candidate names an existing
file is returned verbatim by `tryResolve`, with no extension check; hence
`analyzeDirectory` can add graph nodes (and count them in
`stats.totalFiles`) for files outside the allowed-extension set that were
never discovered: `./data.json` ends up in the graph. -/
theorem c10_verbatim_probe_pollutes_graph :
    (∀ (fs : FileSystem) (P : String) (exts : List String),
      fileExists fs P = true → tryResolve fs P exts = some P) ∧
    (discoverFilesConcurrent fsC10 "/r" DEFAULT_EXTENSIONS DEFAULT_IGNORE_DIRS [] = ["/r/a.ts"] ∧
     (analyzeDirectory fsC10 orcC10 "/r" {}).stats.totalFiles = 2 ∧
     (aGet (analyzeDirectory fsC10 orcC10 "/r" {}).graph.nodes "/r/data.json").isSome = true ∧
     (analyzeDirectory fsC10 orcC10 "/r" {}).graph.hasEdge "/r/a.ts" "/r/data.json" = true ∧
     DEFAULT_EXTENSIONS.contains (extname "/r/data.json") = false) := by
  constructor
  · intro fs P exts h
    unfold tryResolve
    rw [h]
    simp
  · refine ⟨by decide, by decide, by decide, by decide, by decide⟩

/-- C10 witness: the verbatim probe applied to the concrete `data.json`. -/
theorem c10_verbatim_probe_pollutes_graph_witness :
    tryResolve fsC10 "/r/data.json" DEFAULT_EXTENSIONS = some "/r/data.json" :=
  c10_verbatim_probe_pollutes_graph.1 fsC10 "/r/data.json" DEFAULT_EXTENSIONS (by decide)

/-- A walk whose root listing is unavailable yields no files. -/
theorem walkFiles_root_missing (fs : FileSystem) (e i p : List String)
    (fuel : Nat) (d : String) (h : aGet fs.dirs d = none) :
    walkFiles fs e i p fuel d = [] := by
  cases fuel with
  | zero => rfl
  | succ f => simp [walkFiles, h]

/-- C3 (corrected): `analyzeDirectory` on a root whose directory listing is
unavailable (nonexistent root, or a root that is not a directory) does NOT
fail: the walk silently swallows the `readdir` error and the call returns a
successful `AnalysisResult` with an empty graph, zero files and no errors. -/
theorem c3_missing_root_returns_empty_success (fs : FileSystem)
    (orc : String → Except String (List ImportInfo)) (dirPath : String)
    (opts : AnalyzerOptions) (h : aGet fs.dirs (normAbs dirPath) = none) :
    analyzeDirectory fs orc dirPath opts =
      ⟨⟨[], normAbs dirPath⟩, [], ⟨0, 0, 0, [], []⟩, [], normAbs dirPath⟩ := by
  have hw : discoverFilesConcurrent fs (normAbs dirPath)
      (opts.extensions.getD DEFAULT_EXTENSIONS) (opts.ignoreDirs.getD DEFAULT_IGNORE_DIRS)
      (opts.ignorePatterns.getD []) = [] :=
    walkFiles_root_missing fs _ _ _ _ _ h
  unfold analyzeDirectory
  simp only [hw]
  rfl

/-- C3 counterexample: at the concrete nonexistent root `/nonexistent` the
analyzer returns a normal, non-error result with an empty graph — refuting
the claim that invalid roots are fatal and produce no result. -/
theorem c3_counterexample :
    analyzeDirectory (⟨[], []⟩ : FileSystem) (fun _ => .ok []) "/nonexistent" {} =
      ⟨⟨[], "/nonexistent"⟩, [], ⟨0, 0, 0, [], []⟩, [], "/nonexistent"⟩ ∧
    (analyzeDirectory (⟨[], []⟩ : FileSystem) (fun _ => .ok []) "/nonexistent" {}).errors = [] := by
  refine ⟨by decide, by decide⟩

/-- C3 witness: the amended statement applied at the concrete missing root. -/
theorem c3_missing_root_returns_empty_success_witness :
    analyzeDirectory (⟨[], []⟩ : FileSystem) (fun _ => .ok []) "/missing" {} =
      ⟨⟨[], normAbs "/missing"⟩, [], ⟨0, 0, 0, [], []⟩, [], normAbs "/missing"⟩ :=
  c3_missing_root_returns_empty_success ⟨[], []⟩ (fun _ => .ok []) "/missing" {} (by decide)

/-- C7 counterexample: the tree of `import '';` makes the extractor emit a
record whose `source` is the empty string — the empty specifier is not
dropped, refuting the non-emptiness invariant. -/
theorem c7_counterexample :
    (extractImportsFromTree importEmptyTree =
      [⟨"", [], "esm", 1⟩]) ∧
    ¬ (∀ r ∈ extractImportsFromTree importEmptyTree, r.source ≠ "") := by
  refine ⟨by decide, by decide⟩

/-- C7 (corrected): records whose module specifier is not a string literal
are indeed dropped silently — a dynamic-import/require call whose argument
list has no `string` node contributes no record, and an import/export
statement with neither a `source` field nor a `string` child contributes no
record — but a record whose specifier is the empty string literal IS
emitted, with `source = ""` (shown on the concrete `import '';` tree). -/
theorem c7_nonstring_dropped_but_empty_emitted :
    (∃ r ∈ extractImportsFromTree importEmptyTree, r.source = "") ∧
    (∀ (p : Option SNode) (n : SNode), n.ntype = "call_expression" →
      (∀ args, n.fields.get "arguments" = some args →
        args.children.sfind (fun c => c.ntype = "string") = none) →
      ownRecords p n = []) ∧
    (∀ (p : Option SNode) (n : SNode),
      (n.ntype = "import_statement" ∨ n.ntype = "export_statement") →
      n.fields.get "source" = none →
      n.children.sfind (fun c => c.ntype = "string") = none →
      ownRecords p n = []) := by
  refine ⟨by decide, ?_, ?_⟩
  · intro p n h1 h2
    unfold ownRecords
    rw [h1]
    simp only [if_neg (by decide : ¬("call_expression" : String) = "import_statement"),
      if_neg (by decide : ¬("call_expression" : String) = "export_statement"), if_pos rfl]
    cases hf : n.fields.get "function" with
    | none => simp
    | some fn =>
      cases ha : n.fields.get "arguments" with
      | none => simp [ha]
      | some args => simp [ha, h2 args ha]
  · intro p n h1 h2 h3
    unfold ownRecords
    rcases h1 with h1 | h1 <;> rw [h1]
    · simp only [if_pos rfl,
        if_neg (by decide : ¬("import_statement" : String) = "call_expression"),
        if_neg (by decide : ¬("import_statement" : String) = "export_statement")]
      simp [h2, h3]
    · simp only [if_pos rfl,
        if_neg (by decide : ¬("export_statement" : String) = "call_expression"),
        if_neg (by decide : ¬("export_statement" : String) = "import_statement")]
      simp [h2, h3]

/-- C7 witness: the drop property applied at a concrete `require` call with
a non-string (template-literal) argument. -/
theorem c7_nonstring_dropped_but_empty_emitted_witness :
    ownRecords none
      (.mk "call_expression" "require(tpl)"
        (.cons "function" (.mk "identifier" "require" .nil .nil 0)
          (.cons "arguments" (.mk "arguments" "(tpl)" .nil
            (.cons (.mk "template_string" "`x`" .nil .nil 0) .nil) 0) .nil))
        .nil 0) = [] :=
  c7_nonstring_dropped_but_empty_emitted.2.1 none _ (by decide)
    (fun args hargs => by
      cases hargs
      rfl)

/-- C2 counterexample: on the graph `a → b, a → c, b → a, c → a` the single
SCC is `{a, b, c}` but the reconstructed chain is the shorter sub-cycle
`[c, a, c]`; the reported cycle has `length = 3` while
`chain.length - 1 = 2`, refuting `length == chain.length - 1`. -/
theorem c2_counterexample :
    findCycles gC2 = [⟨["c", "a", "c"], 3⟩] ∧
    (∃ cyc ∈ findCycles gC2, 2 ≤ cyc.length ∧ cyc.length ≠ cyc.chain.length - 1) := by
  refine ⟨by decide, by decide⟩

/-- C2 (corrected): every cycle returned by `findCycles` is either a
self-loop with `length = 1` and chain `[p, p]`, or corresponds to a
multi-node SCC with `length` equal to the SCC's size — the size of the SCC,
not `chain.length - 1`; the chain is whatever `reconstructCyclePath`
produced and can traverse fewer nodes than the SCC. -/
theorem c2_length_is_scc_size (g : DependencyGraph) (c : CircularDependency)
    (hc : c ∈ findCycles g) :
    (c.length = 1 ∧ ∃ p, c.chain = [p, p]) ∨
    (∃ scc ∈ findStronglyConnectedComponents g, 1 < scc.length ∧
      c.length = scc.length ∧ c.chain = reconstructCyclePath scc g) := by
  unfold findCycles at hc
  simp only [List.mem_append, List.mem_map, List.mem_filter] at hc
  rcases hc with ⟨n, _, hn⟩ | ⟨scc, ⟨hmem, hlen⟩, heq⟩
  · left
    constructor
    · rw [← hn]
    · exact ⟨n, by rw [← hn]⟩
  · right
    refine ⟨scc, hmem, by simpa using hlen, ?_, ?_⟩
    · rw [← heq]
    · rw [← heq]

/-- C2 witness: the corrected statement applied at the concrete graph. -/
theorem c2_length_is_scc_size_witness :
    ((⟨["c", "a", "c"], 3⟩ : CircularDependency).length = 1 ∧
      ∃ p, (⟨["c", "a", "c"], 3⟩ : CircularDependency).chain = [p, p]) ∨
    (∃ scc ∈ findStronglyConnectedComponents gC2, 1 < scc.length ∧
      (⟨["c", "a", "c"], 3⟩ : CircularDependency).length = scc.length ∧
      (⟨["c", "a", "c"], 3⟩ : CircularDependency).chain = reconstructCyclePath scc gC2) :=
  c2_length_is_scc_size gC2 ⟨["c", "a", "c"], 3⟩ (by decide)

/-- `sortInsert` never returns the empty list. -/
theorem sortInsert_ne_nil {α : Type} (cmp : α → α → Int) (x : α) (l : List α) :
    sortInsert cmp x l ≠ [] := by
  cases l with
  | nil => simp [sortInsert]
  | cons y rest =>
    unfold sortInsert
    split <;> simp

/-- `findWeakestLink` succeeds on any nonempty analysis list. -/
theorem findWeakestLink_isSome (l : List EdgeAnalysis) (h : l ≠ []) :
    (findWeakestLink l).isSome = true := by
  match l with
  | [] => contradiction
  | [a] => rfl
  | a :: b :: rest =>
    show ((stableSort weakCmp (a :: b :: rest)).head?).isSome = true
    cases hs : stableSort weakCmp (a :: b :: rest) with
    | nil =>
      exact absurd (by simpa [stableSort] using hs)
        (sortInsert_ne_nil weakCmp a (stableSort weakCmp (b :: rest)))
    | cons z zs => rfl

/-- C6: the suggestion catalog is dictated by cycle length: a self-loop
yields exactly one `reorder-imports` suggestion targeting `(p, p)`; a
2-cycle yields `extract-interface`, `merge-files` and `lazy-import`; a
cycle of length ≥ 3 yields `extract-interface` targeting the weakest edge,
`dependency-injection` and `lazy-import`, plus `reorder-imports` when the
length is ≥ 4. -/
theorem c6_suggestion_catalog (g : DependencyGraph) (c : CircularDependency) :
    (∀ p, c.chain = [p, p] → c.length = 1 →
      generateCycleSuggestions c g =
        [⟨"reorder-imports",
          "This file imports itself. Refactor to remove the self-reference.",
          some (p, p)⟩]) ∧
    (c.length = 2 →
      (generateCycleSuggestions c g).map (fun s => s.type) =
        ["extract-interface", "merge-files", "lazy-import"]) ∧
    (3 ≤ c.length → 2 ≤ c.chain.length →
      ∃ wl, findWeakestLink ((getEdgesFromCycle c).map (fun e => analyzeEdge e g)) = some wl ∧
        generateCycleSuggestions c g =
          [⟨"extract-interface",
            "The weakest link is " ++ getFileName wl.edge.1 ++ " → " ++ getFileName wl.edge.2 ++
              " (fewest imports). Extract the shared dependency to break the cycle here.",
            some wl.edge⟩,
           ⟨"dependency-injection",
            "Consider using dependency injection instead of direct imports. Pass dependencies as parameters rather than importing them directly.",
            some wl.edge⟩,
           ⟨"lazy-import",
            "Use dynamic imports (import()) to lazily load dependencies at runtime, breaking the static cycle.",
            some wl.edge⟩] ++
          (if c.length ≥ 4 then
            [⟨"reorder-imports",
              "This is a long cycle (" ++ toString c.length ++
                " files). Consider reviewing your module architecture. Long cycles often indicate unclear module boundaries.",
              none⟩]
           else [])) := by
  refine ⟨?_, ?_, ?_⟩
  · intro p hchain hlen
    simp [generateCycleSuggestions, hchain, hlen]
  · intro hlen
    have h1 : ¬ c.length = 1 := by omega
    simp [generateCycleSuggestions, hlen]
  · intro hlen hcl
    have h1 : ¬ c.length = 1 := by omega
    have h2 : ¬ c.length = 2 := by omega
    have hne : (getEdgesFromCycle c).map (fun e => analyzeEdge e g) ≠ [] := by
      unfold getEdgesFromCycle
      match hch : c.chain, hcl' : c.chain.length, hcl with
      | a :: b :: rest, _, _ => simp [List.zip]
      | [a], hl, hcontr => rw [hch] at hcl; simp at hcl
      | [], hl, hcontr => rw [hch] at hcl; simp at hcl
    obtain ⟨wl, hwl⟩ := Option.isSome_iff_exists.mp (findWeakestLink_isSome _ hne)
    refine ⟨wl, hwl, ?_⟩
    simp only [generateCycleSuggestions, if_neg h1, if_neg h2, hwl, Option.map_some]
    by_cases h4 : c.length ≥ 4 <;> simp [h4]

/-- C6 witness: the self-loop branch applied at a concrete cycle. -/
theorem c6_suggestion_catalog_witness :
    generateCycleSuggestions ⟨["/a", "/a"], 1⟩ g2 =
      [⟨"reorder-imports",
        "This file imports itself. Refactor to remove the self-reference.",
        some ("/a", "/a")⟩] :=
  (c6_suggestion_catalog g2 ⟨["/a", "/a"], 1⟩).1 "/a" rfl rfl

/-! ## Graph invariant preservation (claim C4) -/

/-- `contains` agrees with membership for string lists. -/
theorem scontains_iff (l : List String) (x : String) : l.contains x = true ↔ x ∈ l :=
  List.elem_iff

/-- A key is looked up successfully iff it occurs among the keys. -/
theorem aGet_isSome_iff_mem_keys {α : Type} (m : List (String × α)) (j : String) :
    (aGet m j).isSome = true ↔ j ∈ m.map (fun p => p.1) := by
  induction m with
  | nil => simp [aGet]
  | cons p rest ih =>
    obtain ⟨k, v⟩ := p
    by_cases h : j = k <;> simp [aGet, h, ih]

/-- Lookup in the graph after `updateNode`. -/
theorem aGet_updateNode (g : DependencyGraph) (k : String) (f : DependencyNode → DependencyNode)
    (j : String) :
    aGet (g.updateNode k f).nodes j = if j = k then (aGet g.nodes j).map f else aGet g.nodes j := by
  unfold DependencyGraph.updateNode
  exact aGet_pmap g.nodes k f j

/-- `addNode` of a present key is the identity. -/
theorem addNode_of_isSome (g : DependencyGraph) (p : String)
    (hp : (aGet g.nodes p).isSome = true) : g.addNode p = g := by
  unfold DependencyGraph.addNode
  rw [if_pos hp]

/-- Lookup in the graph after `addNode` of an absent key. -/
theorem aGet_addNode_of_none (g : DependencyGraph) (p : String)
    (hp : aGet g.nodes p = none) (j : String) :
    aGet (g.addNode p).nodes j =
      if j = p then some ⟨p, [], []⟩ else aGet g.nodes j := by
  unfold DependencyGraph.addNode
  rw [if_neg (by simp [hp])]
  rw [aGet_append]
  by_cases hj : j = p
  · subst hj
    simp [hp, aGet]
  · cases h : aGet g.nodes j with
    | some x => simp [hj]
    | none => simp [aGet, hj]

/-- `GraphInv` is preserved by `addNode`. -/
theorem graphInv_addNode (g : DependencyGraph) (p : String) (h : GraphInv g) :
    GraphInv (g.addNode p) := by
  obtain ⟨hC, hCl⟩ := h
  by_cases hp : (aGet g.nodes p).isSome
  · rw [addNode_of_isSome g p hp]
    exact ⟨hC, hCl⟩
  · have hpn : aGet g.nodes p = none := by
      cases h : aGet g.nodes p with
      | none => rfl
      | some x => rw [h] at hp; simp at hp
    constructor
    · intro u v nu nv hu hv
      rw [aGet_addNode_of_none g p hpn] at hu hv
      by_cases hu' : u = p
      · rw [if_pos hu'] at hu
        cases hu
        by_cases hv' : v = p
        · rw [if_pos hv'] at hv
          cases hv
          simp
        · rw [if_neg hv'] at hv
          subst hu'
          constructor
          · intro hmem
            simp at hmem
          · intro hmem
            have := (hCl v nv hv).2 u hmem
            rw [hpn] at this
            simp at this
      · rw [if_neg hu'] at hu
        by_cases hv' : v = p
        · rw [if_pos hv'] at hv
          cases hv
          subst hv'
          constructor
          · intro hmem
            have := (hCl u nu hu).1 v hmem
            rw [hpn] at this
            simp at this
          · intro hmem
            simp at hmem
        · rw [if_neg hv'] at hv
          exact hC u v nu nv hu hv
    · intro u nu hu
      rw [aGet_addNode_of_none g p hpn] at hu
      by_cases hu' : u = p
      · rw [if_pos hu'] at hu
        cases hu
        constructor <;> intro v hv <;> simp at hv
      · rw [if_neg hu'] at hu
        obtain ⟨h1, h2⟩ := hCl u nu hu
        constructor
        · intro v hv
          rw [aGet_addNode_of_none g p hpn]
          by_cases hv' : v = p <;> simp [hv', h1 v hv]
        · intro v hv
          rw [aGet_addNode_of_none g p hpn]
          by_cases hv' : v = p <;> simp [hv', h2 v hv]

/-- A present key stays present after `addNode`. -/
theorem addNode_pres_isSome (g : DependencyGraph) (p j : String)
    (h : (aGet g.nodes j).isSome = true) : (aGet (g.addNode p).nodes j).isSome = true := by
  by_cases hp : (aGet g.nodes p).isSome
  · rw [addNode_of_isSome g p hp]; exact h
  · have hpn : aGet g.nodes p = none := by
      cases hx : aGet g.nodes p with
      | none => rfl
      | some x => rw [hx] at hp; simp at hp
    rw [aGet_addNode_of_none g p hpn]
    by_cases hj : j = p <;> simp [hj, h]

/-- The added key is present after `addNode`. -/
theorem addNode_self_isSome (g : DependencyGraph) (p : String) :
    (aGet (g.addNode p).nodes p).isSome = true := by
  by_cases hp : (aGet g.nodes p).isSome
  · rw [addNode_of_isSome g p hp]; exact hp
  · have hpn : aGet g.nodes p = none := by
      cases hx : aGet g.nodes p with
      | none => rfl
      | some x => rw [hx] at hp; simp at hp
    rw [aGet_addNode_of_none g p hpn]
    simp

/-- `GraphInv` is preserved by `addEdge`. -/
theorem graphInv_addEdge (g : DependencyGraph) (s d : String) (h : GraphInv g) :
    GraphInv (g.addEdge s d) := by
  have hInv1 : GraphInv ((g.addNode s).addNode d) :=
    graphInv_addNode _ d (graphInv_addNode g s h)
  obtain ⟨hC1, hCl1⟩ := hInv1
  have hsS : (aGet ((g.addNode s).addNode d).nodes s).isSome = true :=
    addNode_pres_isSome _ d s (addNode_self_isSome g s)
  have hdS : (aGet ((g.addNode s).addNode d).nodes d).isSome = true :=
    addNode_self_isSome (g.addNode s) d
  obtain ⟨nS, hs⟩ := Option.isSome_iff_exists.mp hsS
  obtain ⟨nD, hd⟩ := Option.isSome_iff_exists.mp hdS
  -- characterize the result graph by a membership description
  have hchar : ∃ G' , g.addEdge s d = G' ∧
      (∀ j nj', aGet G'.nodes j = some nj' →
        ∃ nj, aGet ((g.addNode s).addNode d).nodes j = some nj ∧
          (∀ x, x ∈ nj'.dependencies ↔ (x ∈ nj.dependencies ∨ (j = s ∧ x = d))) ∧
          (∀ x, x ∈ nj'.dependents ↔ (x ∈ nj.dependents ∨ (j = d ∧ x = s)))) ∧
      (∀ j, (aGet ((g.addNode s).addNode d).nodes j).isSome = true →
        (aGet G'.nodes j).isSome = true) := by
    by_cases hc1 : nS.dependencies.contains d
    · -- the edge is already present in both directions: addEdge is the identity
      have hmemd : d ∈ nS.dependencies := (scontains_iff _ _).mp hc1
      have hmems : s ∈ nD.dependents := (hC1 s d nS nD hs hd).mp hmemd
      have hc2 : nD.dependents.contains s = true := (scontains_iff _ _).mpr hmems
      refine ⟨(g.addNode s).addNode d, ?_, ?_, ?_⟩
      · simp only [DependencyGraph.addEdge, hs, if_pos hc1, hd, if_pos hc2]
      · intro j nj' hj
        refine ⟨nj', hj, ?_, ?_⟩
        · intro x
          constructor
          · exact fun hx => Or.inl hx
          · rintro (hx | ⟨rfl, rfl⟩)
            · exact hx
            · rw [hs] at hj; cases hj; exact hmemd
        · intro x
          constructor
          · exact fun hx => Or.inl hx
          · rintro (hx | ⟨rfl, rfl⟩)
            · exact hx
            · rw [hd] at hj; cases hj; exact hmems
      · intro j hj
        exact hj
    · -- the edge is new: both direction lists get pushed
      have hnmemd : d ∉ nS.dependencies := fun hx => hc1 ((scontains_iff _ _).mpr hx)
      have hnmems : s ∉ nD.dependents := fun hx => hnmemd ((hC1 s d nS nD hs hd).mpr hx)
      have hc1f : nS.dependencies.contains d = false := by
        rw [Bool.eq_false_iff]
        exact hc1
      have hc2f : nD.dependents.contains s = false := by
        rw [Bool.eq_false_iff]
        intro hx
        exact hnmems ((scontains_iff _ _).mp hx)
      by_cases hds : d = s
      · -- self-edge: both pushes hit the same node, sequentially
        subst hds
        have hnn : nD = nS := by rw [hs] at hd; cases hd; rfl
        subst hnn
        refine ⟨(((g.addNode d).addNode d).updateNode d
            (fun n => { n with dependencies := n.dependencies ++ [d] })).updateNode d
            (fun n => { n with dependents := n.dependents ++ [d] }), ?_, ?_, ?_⟩
        · have hg2d : aGet (((g.addNode d).addNode d).updateNode d
              (fun n => { n with dependencies := n.dependencies ++ [d] })).nodes d =
              some ⟨nD.filePath, nD.dependencies ++ [d], nD.dependents⟩ := by
            rw [aGet_updateNode]
            simp [hs]
          simp only [DependencyGraph.addEdge, hs, hc1f, Bool.false_eq_true, if_false, hg2d]
          rw [if_neg (by simpa using hnmems)]
        · intro j nj' hj
          rw [aGet_updateNode] at hj
          by_cases hjd : j = d
          · subst hjd
            rw [if_pos rfl, aGet_updateNode, if_pos rfl, hs] at hj
            simp only [Option.map_some'] at hj
            cases hj
            refine ⟨nD, hs, ?_, ?_⟩
            · intro x
              simp [List.mem_append]
            · intro x
              simp [List.mem_append]
          · rw [if_neg hjd, aGet_updateNode, if_neg hjd] at hj
            refine ⟨nj', hj, ?_, ?_⟩
            · intro x
              simp [hjd]
            · intro x
              simp [hjd]
        · intro j hj
          rw [aGet_updateNode, aGet_updateNode]
          by_cases hjd : j = d <;> simp [hjd, hs, hj]
      · -- distinct endpoints: push `d` on `s`, then `s` on `d`
        refine ⟨(((g.addNode s).addNode d).updateNode s
            (fun n => { n with dependencies := n.dependencies ++ [d] })).updateNode d
            (fun n => { n with dependents := n.dependents ++ [s] }), ?_, ?_, ?_⟩
        · have hg2d : aGet (((g.addNode s).addNode d).updateNode s
              (fun n => { n with dependencies := n.dependencies ++ [d] })).nodes d = some nD := by
            rw [aGet_updateNode, if_neg hds]
            exact hd
          simp only [DependencyGraph.addEdge, hs, hc1f, Bool.false_eq_true, if_false, hg2d]
          rw [if_neg (by simpa using hnmems)]
        · intro j nj' hj
          rw [aGet_updateNode] at hj
          by_cases hjd : j = d
          · subst hjd
            rw [if_pos rfl, aGet_updateNode, if_neg hds, hd] at hj
            simp only [Option.map_some'] at hj
            cases hj
            refine ⟨nD, hd, ?_, ?_⟩
            · intro x
              simp [hds]
            · intro x
              simp [List.mem_append]
          · rw [if_neg hjd, aGet_updateNode] at hj
            by_cases hjs : j = s
            · subst hjs
              rw [if_pos rfl, hs] at hj
              simp only [Option.map_some'] at hj
              cases hj
              refine ⟨nS, hs, ?_, ?_⟩
              · intro x
                simp [List.mem_append]
              · intro x
                simp [hjd]
            · rw [if_neg hjs] at hj
              refine ⟨nj', hj, ?_, ?_⟩
              · intro x
                simp [hjs]
              · intro x
                simp [hjd]
        · intro j hj
          rw [aGet_updateNode, aGet_updateNode]
          by_cases hjd : j = d <;> by_cases hjs : j = s <;>
            simp [hjd, hjs, hs, hd, hj, hds, Ne.symm hds]
  obtain ⟨G', hG, hfwd, hpres⟩ := hchar
  rw [hG]
  constructor
  · intro u v nu' nv' hu hv
    obtain ⟨nu, hu1, hud, hut⟩ := hfwd u nu' hu
    obtain ⟨nv, hv1, hvd, hvt⟩ := hfwd v nv' hv
    rw [hud v, hvt u]
    constructor
    · rintro (hx | ⟨rfl, rfl⟩)
      · exact Or.inl ((hC1 u v nu nv hu1 hv1).mp hx)
      · exact Or.inr ⟨rfl, rfl⟩
    · rintro (hx | ⟨rfl, rfl⟩)
      · exact Or.inl ((hC1 u v nu nv hu1 hv1).mpr hx)
      · exact Or.inr ⟨rfl, rfl⟩
  · intro u nu' hu
    obtain ⟨nu, hu1, hud, hut⟩ := hfwd u nu' hu
    constructor
    · intro v hv
      rcases (hud v).mp hv with hx | ⟨rfl, rfl⟩
      · exact hpres v ((hCl1 u nu hu1).1 v hx)
      · exact hpres v hdS
    · intro v hv
      rcases (hut v).mp hv with hx | ⟨rfl, rfl⟩
      · exact hpres v ((hCl1 u nu hu1).2 v hx)
      · exact hpres v hsS

/-- Lookup through a presence-guarded `updateNode`. -/
theorem aGet_condUpdate (g : DependencyGraph) (k : String) (f : DependencyNode → DependencyNode)
    (j : String) :
    aGet (if (aGet g.nodes k).isSome = true then g.updateNode k f else g).nodes j =
      if j = k then (aGet g.nodes j).map f else aGet g.nodes j := by
  by_cases hk : (aGet g.nodes k).isSome
  · rw [if_pos hk, aGet_updateNode]
  · rw [if_neg hk]
    by_cases hj : j = k
    · subst hj
      cases hx : aGet g.nodes j with
      | none => simp
      | some x => rw [hx] at hk; simp at hk
    · simp [hj]

/-- `GraphInv` is preserved by `removeEdge`. -/
theorem graphInv_removeEdge (g : DependencyGraph) (s d : String) (h : GraphInv g) :
    GraphInv (g.removeEdge s d) := by
  obtain ⟨hC, hCl⟩ := h
  have hlook : ∀ j, aGet (g.removeEdge s d).nodes j =
      (fun o => if j = d then
        o.map (fun n => { n with dependents := n.dependents.filter (fun x => x ≠ s) }) else o)
      (if j = s then
        (aGet g.nodes j).map
          (fun n => { n with dependencies := n.dependencies.filter (fun x => x ≠ d) })
       else aGet g.nodes j) := by
    intro j
    unfold DependencyGraph.removeEdge
    rw [aGet_condUpdate, aGet_condUpdate]
  have hfwd : ∀ j nj', aGet (g.removeEdge s d).nodes j = some nj' →
      ∃ nj, aGet g.nodes j = some nj ∧
        (∀ x, x ∈ nj'.dependencies ↔ (x ∈ nj.dependencies ∧ ¬(j = s ∧ x = d))) ∧
        (∀ x, x ∈ nj'.dependents ↔ (x ∈ nj.dependents ∧ ¬(j = d ∧ x = s))) := by
    intro j nj' hj
    rw [hlook j] at hj
    simp only at hj
    by_cases hjs : j = s
    · subst hjs
      by_cases hjd : j = d
      · subst hjd
        cases hx : aGet g.nodes j with
        | none => rw [hx] at hj; simp at hj
        | some nj =>
          rw [hx] at hj
          simp only [Option.map_some', if_pos rfl] at hj
          cases hj
          refine ⟨nj, rfl, ?_, ?_⟩
          · intro x
            simp [List.mem_filter]
          · intro x
            simp [List.mem_filter]
      · cases hx : aGet g.nodes j with
        | none => rw [hx] at hj; simp [hjd] at hj
        | some nj =>
          rw [hx] at hj
          simp only [Option.map_some', if_pos rfl, if_neg hjd] at hj
          cases hj
          refine ⟨nj, rfl, ?_, ?_⟩
          · intro x
            simp [List.mem_filter]
          · intro x
            simp [hjd]
    · by_cases hjd : j = d
      · subst hjd
        cases hx : aGet g.nodes j with
        | none => rw [hx] at hj; simp [hjs] at hj
        | some nj =>
          rw [hx] at hj
          simp only [Option.map_some', if_pos rfl, if_neg hjs] at hj
          cases hj
          refine ⟨nj, rfl, ?_, ?_⟩
          · intro x
            simp [hjs]
          · intro x
            simp [List.mem_filter]
      · rw [if_neg hjd, if_neg hjs] at hj
        refine ⟨nj', hj, ?_, ?_⟩
        · intro x
          simp [hjs]
        · intro x
          simp [hjd]
  have hpres : ∀ j, (aGet g.nodes j).isSome = true →
      (aGet (g.removeEdge s d).nodes j).isSome = true := by
    intro j hj
    rw [hlook j]
    obtain ⟨x, hx⟩ := Option.isSome_iff_exists.mp hj
    by_cases hjs : j = s
    · subst hjs
      by_cases hjd : j = d
      · subst hjd
        simp [hx]
      · simp [hx, hjd]
    · by_cases hjd : j = d
      · subst hjd
        simp [hx, hjs]
      · simp [hx, hjs, hjd]
  constructor
  · intro u v nu' nv' hu hv
    obtain ⟨nu, hu1, hud, hut⟩ := hfwd u nu' hu
    obtain ⟨nv, hv1, hvd, hvt⟩ := hfwd v nv' hv
    rw [hud v, hvt u]
    constructor
    · rintro ⟨hx, hno⟩
      exact ⟨(hC u v nu nv hu1 hv1).mp hx, fun hcon => hno ⟨hcon.2, hcon.1⟩⟩
    · rintro ⟨hx, hno⟩
      exact ⟨(hC u v nu nv hu1 hv1).mpr hx, fun hcon => hno ⟨hcon.2, hcon.1⟩⟩
  · intro u nu' hu
    obtain ⟨nu, hu1, hud, hut⟩ := hfwd u nu' hu
    constructor
    · intro v hv
      exact hpres v ((hCl u nu hu1).1 v ((hud v).mp hv).1)
    · intro v hv
      exact hpres v ((hCl u nu hu1).2 v ((hut v).mp hv).1)

/-- Filtering twice by the same predicate equals filtering once. -/
theorem filter_self_idem {α : Type} (q : α → Bool) (l : List α) :
    (l.filter q).filter q = l.filter q := by
  induction l with
  | nil => rfl
  | cons a rest ih =>
    by_cases h : q a <;> simp [List.filter_cons, h, ih]

/-- Lookup through a fold of idempotent point updates. -/
theorem aGet_foldl_update (L : List String) (g : DependencyGraph)
    (f : DependencyNode → DependencyNode) (hf : ∀ n, f (f n) = f n) (j : String) :
    aGet (L.foldl (fun acc dep => acc.updateNode dep f) g).nodes j =
      if j ∈ L then (aGet g.nodes j).map f else aGet g.nodes j := by
  induction L generalizing g with
  | nil => simp
  | cons dep rest ih =>
    simp only [List.foldl_cons]
    rw [ih (g.updateNode dep f)]
    rw [aGet_updateNode]
    by_cases hjr : j ∈ rest
    · rw [if_pos hjr]
      by_cases hjd : j = dep
      · rw [if_pos hjd, if_pos (show j ∈ dep :: rest by simp [hjr])]
        cases hx : aGet g.nodes j <;> simp [hf]
      · rw [if_neg hjd, if_pos (show j ∈ dep :: rest by simp [hjr])]
    · rw [if_neg hjr]
      by_cases hjd : j = dep
      · rw [if_pos hjd, if_pos (show j ∈ dep :: rest by simp [hjd])]
      · rw [if_neg hjd, if_neg (show ¬ j ∈ dep :: rest by simp [hjd, hjr])]

/-- `GraphInv` is preserved by `removeNode`. -/
theorem graphInv_removeNode (g : DependencyGraph) (p : String) (h : GraphInv g) :
    GraphInv (g.removeNode p) := by
  obtain ⟨hC, hCl⟩ := h
  cases hp : aGet g.nodes p with
  | none =>
    have heq : g.removeNode p = g := by
      unfold DependencyGraph.removeNode
      rw [hp]
    rw [heq]
    exact ⟨hC, hCl⟩
  | some node =>
    have hidemD : ∀ n : DependencyNode,
        (fun n => DependencyNode.mk n.filePath
            (n.dependencies.filter (fun x => x ≠ p)) n.dependents)
          ((fun n => DependencyNode.mk n.filePath
            (n.dependencies.filter (fun x => x ≠ p)) n.dependents) n) =
        (fun n => DependencyNode.mk n.filePath
            (n.dependencies.filter (fun x => x ≠ p)) n.dependents) n := by
      intro n
      simp [filter_self_idem]
    have hidemT : ∀ n : DependencyNode,
        (fun n => DependencyNode.mk n.filePath n.dependencies
            (n.dependents.filter (fun x => x ≠ p)))
          ((fun n => DependencyNode.mk n.filePath n.dependencies
            (n.dependents.filter (fun x => x ≠ p))) n) =
        (fun n => DependencyNode.mk n.filePath n.dependencies
            (n.dependents.filter (fun x => x ≠ p))) n := by
      intro n
      simp [filter_self_idem]
    -- the middle read of `p`'s (possibly scrubbed) dependency list
    have hlook : ∀ j, aGet (g.removeNode p).nodes j =
        (if j = p then none else
          ((fun o => if j ∈ (if p ∈ node.dependents
                then node.dependencies.filter (fun x => x ≠ p)
                else node.dependencies) then
              o.map (fun n => DependencyNode.mk n.filePath n.dependencies
                (n.dependents.filter (fun x => x ≠ p))) else o)
            (if j ∈ node.dependents then
              (aGet g.nodes j).map (fun n => DependencyNode.mk n.filePath
                (n.dependencies.filter (fun x => x ≠ p)) n.dependents)
             else aGet g.nodes j))) := by
      intro j
      unfold DependencyGraph.removeNode
      rw [hp]
      simp only [aGet_aDel]
      by_cases hjp : j = p
      · rw [if_pos hjp, if_pos hjp]
      · rw [if_neg hjp, if_neg hjp]
        rw [aGet_foldl_update _ _ _ hidemT, aGet_foldl_update _ _ _ hidemD]
        rw [aGet_foldl_update _ _ _ hidemD, hp]
        by_cases hpD : p ∈ node.dependents
        · simp only [hpD, if_true, Option.map_some']
        · simp only [hpD, if_false]
    have hfwd : ∀ j nj', aGet (g.removeNode p).nodes j = some nj' →
        j ≠ p ∧ ∃ nj, aGet g.nodes j = some nj ∧
          (∀ x, x ∈ nj'.dependencies ↔ (x ∈ nj.dependencies ∧ x ≠ p)) ∧
          (∀ x, x ∈ nj'.dependents ↔ (x ∈ nj.dependents ∧ x ≠ p)) := by
      intro j nj' hj
      rw [hlook j] at hj
      simp only at hj
      by_cases hjp : j = p
      · rw [if_pos hjp] at hj
        cases hj
      · rw [if_neg hjp] at hj
        refine ⟨hjp, ?_⟩
        -- membership in the middle list agrees with membership in `p`'s outgoing list
        have hD1iff : (j ∈ (if p ∈ node.dependents
            then node.dependencies.filter (fun x => x ≠ p)
            else node.dependencies)) ↔ j ∈ node.dependencies := by
          by_cases hpD : p ∈ node.dependents
          · rw [if_pos hpD]
            simp [List.mem_filter, hjp]
          · rw [if_neg hpD]
        by_cases hjDep : j ∈ node.dependents <;>
          by_cases hjD1 : j ∈ (if p ∈ node.dependents
            then node.dependencies.filter (fun x => x ≠ p)
            else node.dependencies)
        · rw [if_pos hjDep, if_pos hjD1] at hj
          cases hx : aGet g.nodes j with
          | none => rw [hx] at hj; cases hj
          | some nj =>
            rw [hx] at hj
            simp only [Option.map_some'] at hj
            cases hj
            refine ⟨nj, rfl, ?_, ?_⟩
            · intro x
              simp [List.mem_filter]
            · intro x
              simp [List.mem_filter]
        · rw [if_pos hjDep, if_neg hjD1] at hj
          cases hx : aGet g.nodes j with
          | none => rw [hx] at hj; cases hj
          | some nj =>
            rw [hx] at hj
            simp only [Option.map_some'] at hj
            cases hj
            have hjnd : j ∉ node.dependencies := fun hm => hjD1 (hD1iff.mpr hm)
            have hpnot : p ∉ nj.dependents := fun hm => hjnd ((hC p j node nj hp hx).mpr hm)
            refine ⟨nj, rfl, ?_, ?_⟩
            · intro x
              simp [List.mem_filter]
            · intro x
              constructor
              · intro hx1
                exact ⟨hx1, fun hxp => hpnot (hxp ▸ hx1)⟩
              · intro hx1
                exact hx1.1
        · rw [if_neg hjDep, if_pos hjD1] at hj
          cases hx : aGet g.nodes j with
          | none => rw [hx] at hj; cases hj
          | some nj =>
            rw [hx] at hj
            simp only [Option.map_some'] at hj
            cases hj
            have hpnotd : p ∉ nj.dependencies := fun hm => hjDep ((hC j p nj node hx hp).mp hm)
            refine ⟨nj, rfl, ?_, ?_⟩
            · intro x
              constructor
              · intro hx1
                exact ⟨hx1, fun hxp => hpnotd (hxp ▸ hx1)⟩
              · intro hx1
                exact hx1.1
            · intro x
              simp [List.mem_filter]
        · rw [if_neg hjDep, if_neg hjD1] at hj
          cases hx : aGet g.nodes j with
          | none => rw [hx] at hj; cases hj
          | some nj =>
            rw [hx] at hj
            have hnj := Option.some.inj hj
            subst hnj
            have hjnd : j ∉ node.dependencies := fun hm => hjD1 (hD1iff.mpr hm)
            have hpnot : p ∉ nj.dependents := fun hm => hjnd ((hC p j node nj hp hx).mpr hm)
            have hpnotd : p ∉ nj.dependencies := fun hm => hjDep ((hC j p nj node hx hp).mp hm)
            refine ⟨nj, rfl, ?_, ?_⟩
            · intro x
              constructor
              · intro hx1
                exact ⟨hx1, fun hxp => hpnotd (hxp ▸ hx1)⟩
              · intro hx1
                exact hx1.1
            · intro x
              constructor
              · intro hx1
                exact ⟨hx1, fun hxp => hpnot (hxp ▸ hx1)⟩
              · intro hx1
                exact hx1.1
    have hpres : ∀ j, j ≠ p → (aGet g.nodes j).isSome = true →
        (aGet (g.removeNode p).nodes j).isSome = true := by
      intro j hjp hj
      rw [hlook j]
      simp only
      rw [if_neg hjp]
      obtain ⟨x, hx⟩ := Option.isSome_iff_exists.mp hj
      split <;> split <;> simp [hx] <;> split <;> simp
    constructor
    · intro u v nu' nv' hu hv
      obtain ⟨hup, nu, hu1, hud, hut⟩ := hfwd u nu' hu
      obtain ⟨hvp, nv, hv1, hvd, hvt⟩ := hfwd v nv' hv
      rw [hud v, hvt u]
      constructor
      · rintro ⟨hx, _⟩
        exact ⟨(hC u v nu nv hu1 hv1).mp hx, hup⟩
      · rintro ⟨hx, _⟩
        exact ⟨(hC u v nu nv hu1 hv1).mpr hx, hvp⟩
    · intro u nu' hu
      obtain ⟨hup, nu, hu1, hud, hut⟩ := hfwd u nu' hu
      constructor
      · intro v hv
        obtain ⟨hv1, hv2⟩ := (hud v).mp hv
        exact hpres v hv2 ((hCl u nu hu1).1 v hv1)
      · intro v hv
        obtain ⟨hv1, hv2⟩ := (hut v).mp hv
        exact hpres v hv2 ((hCl u nu hu1).2 v hv1)

/-- The empty graph satisfies both invariants. -/
theorem graphInv_empty : GraphInv graphEmpty := by
  constructor
  · intro u v nu nv hu hv
    simp [graphEmpty, aGet] at hu
  · intro u nu hu
    simp [graphEmpty, aGet] at hu

/-- Every single mutation preserves the invariants. -/
theorem graphInv_applyOp (g : DependencyGraph) (op : GraphOp) (h : GraphInv g) :
    GraphInv (applyOp g op) := by
  cases op with
  | addNode p => exact graphInv_addNode g p h
  | addEdge s d => exact graphInv_addEdge g s d h
  | removeNode p => exact graphInv_removeNode g p h
  | removeEdge s d => exact graphInv_removeEdge g s d h

/-- Any mutation sequence preserves the invariants. -/
theorem graphInv_applyOps (ops : List GraphOp) (g : DependencyGraph) (h : GraphInv g) :
    GraphInv (applyOps ops g) := by
  induction ops generalizing g with
  | nil => exact h
  | cons op rest ih =>
    exact ih (applyOp g op) (graphInv_applyOp g op h)

/-- C4: for every graph reachable from the empty graph by any sequence of
`addNode`, `addEdge`, `removeNode`, `removeEdge` mutations, and every pair
of present nodes `u`, `v`: `v` is in `u`'s outgoing list iff `u` is in
`v`'s incoming list. -/
theorem c4_bidirectional_consistency (ops : List GraphOp) :
    Consistent (applyOps ops graphEmpty) :=
  (graphInv_applyOps ops graphEmpty graphInv_empty).1

/-! ## Tarjan on acyclic graphs (claim C5) -/

/-- Appending one edge to a path. -/
theorem gpath_snoc (g : DependencyGraph) {a b c : String}
    (h : GPath g a b) (he : g.hasEdge b c = true) : GPath g a c := by
  induction h with
  | single hab => exact .cons hab (.single he)
  | cons hab _ ih => exact .cons hab (ih he)

/-- Appending one edge to reflexive-transitive reachability. -/
theorem reachStar_snoc (g : DependencyGraph) {a b c : String}
    (h : ReachStar g a b) (he : g.hasEdge b c = true) : ReachStar g a c := by
  rcases h with rfl | hp
  · exact Or.inr (.single he)
  · exact Or.inr (gpath_snoc g hp he)

/-- An edge back into a node that reaches its source closes a cycle. -/
theorem gpath_cycle (g : DependencyGraph) {v w : String}
    (he : g.hasEdge v w = true) (h : ReachStar g w v) : GPath g v v := by
  rcases h with rfl | hp
  · exact .single he
  · exact .cons he hp

/-- `hasEdge` agrees with membership in `getDependencies`. -/
theorem hasEdge_iff_mem_deps (g : DependencyGraph) (u v : String) :
    g.hasEdge u v = true ↔ v ∈ g.getDependencies u := by
  unfold DependencyGraph.hasEdge DependencyGraph.getDependencies
  cases aGet g.nodes u with
  | none => simp
  | some n => simp [scontains_iff]

/-- Filtering with a weaker predicate keeps at most as many elements. -/
theorem filter_length_mono {α : Type} (l : List α) (p q : α → Bool)
    (h : ∀ w, p w = true → q w = true) :
    (l.filter p).length ≤ (l.filter q).length := by
  induction l with
  | nil => simp
  | cons a rest ih =>
    by_cases hp : p a
    · rw [List.filter_cons_of_pos hp, List.filter_cons_of_pos (h a hp)]
      simpa using ih
    · rw [List.filter_cons_of_neg hp]
      by_cases hq : q a
      · rw [List.filter_cons_of_pos hq]
        exact Nat.le_succ_of_le ih
      · rw [List.filter_cons_of_neg hq]
        exact ih

/-- A strictly dropped element makes the filter strictly shorter. -/
theorem filter_length_strict {α : Type} [DecidableEq α] (l : List α) (p q : α → Bool)
    (h : ∀ w, p w = true → q w = true) (v : α) (hv : v ∈ l)
    (hpv : p v = false) (hqv : q v = true) :
    (l.filter p).length < (l.filter q).length := by
  induction l with
  | nil => cases hv
  | cons a rest ih =>
    by_cases hav : a = v
    · subst hav
      rw [List.filter_cons_of_neg (by simp [hpv]), List.filter_cons_of_pos hqv]
      exact Nat.lt_succ_of_le (filter_length_mono rest p q h)
    · have hv' : v ∈ rest := by
        cases hv with
        | head => exact absurd rfl hav
        | tail _ h2 => exact h2
      by_cases hp : p a
      · rw [List.filter_cons_of_pos hp, List.filter_cons_of_pos (h a hp)]
        simpa using ih hv'
      · rw [List.filter_cons_of_neg hp]
        by_cases hq : q a
        · rw [List.filter_cons_of_pos hq]
          exact Nat.lt_succ_of_le (Nat.le_of_lt (ih hv'))
        · rw [List.filter_cons_of_neg hq]
          exact ih hv'

/-- Extending the index map can only shrink the unvisited count. -/
theorem unassigned_mono (g : DependencyGraph) (st st' : TarjanState)
    (h : ∀ w, (aGet st.indices w).isSome = true → (aGet st'.indices w).isSome = true) :
    unassigned g st' ≤ unassigned g st := by
  apply filter_length_mono
  intro w hw
  simp only [Option.isNone_iff_eq_none] at hw ⊢
  cases hx : aGet st.indices w with
  | none => rfl
  | some i =>
    have := h w (by simp [hx])
    rw [hw] at this
    simp at this

/-- Assigning an unvisited node strictly shrinks the unvisited count. -/
theorem unassigned_strict (g : DependencyGraph) (st st' : TarjanState) (v : String)
    (hv : v ∈ g.getNodes) (hnone : aGet st.indices v = none)
    (hsome : (aGet st'.indices v).isSome = true)
    (h : ∀ w, (aGet st.indices w).isSome = true → (aGet st'.indices w).isSome = true) :
    unassigned g st' < unassigned g st := by
  refine filter_length_strict _ _ _ ?_ v hv ?_ ?_
  · intro w hw
    simp only [Option.isNone_iff_eq_none] at hw ⊢
    cases hx : aGet st.indices w with
    | none => rfl
    | some i =>
      have := h w (by simp [hx])
      rw [hw] at this
      simp at this
  · cases hx : aGet st'.indices v with
    | none => rw [hx] at hsome; simp at hsome
    | some i => rfl
  · rw [hnone]
    rfl

/-- On an acyclic, closed graph every `strongConnect` call with enough fuel
returns the stack unchanged, assigns `v` index = lowlink, and emits only
singleton SCCs. -/
theorem strongConnect_acyclic (g : DependencyGraph) (hCl : ClosedGraph g) (hA : Acyclic g) :
    ∀ fuel v st, TarjanPre g st v fuel →
      TarjanPost g st (strongConnect g fuel v st) v := by
  intro fuel
  induction fuel with
  | zero =>
    intro v st pre
    exact absurd pre.fuel_ok (Nat.not_lt_zero _)
  | succ f ih =>
    intro v st pre
    have hvstack : v ∉ st.stack := by
      intro hmem
      have := pre.stack_assigned v hmem
      rw [pre.v_unassigned] at this
      simp at this
    have hmid1 : TarjanMid g st v
        { st with
          indices := aSet st.indices v st.index
          lowlinks := aSet st.lowlinks v st.index
          index := st.index + 1
          stack := v :: st.stack
          onStack := v :: st.onStack } := by
      refine ⟨rfl, ?_, ?_, ?_, ?_, Nat.lt_succ_self _, ?_, ?_, ?_, ?_⟩
      · intro w
        simp [List.mem_cons, pre.onStack_iff w]
      · intro w hw
        simp only [List.mem_cons] at hw
        rw [aGet_aSet]
        rcases hw with rfl | hw
        · simp
        · by_cases hwv : w = v
          · simp [hwv]
          · rw [if_neg hwv]
            exact pre.stack_assigned w hw
      · intro w i h
        rw [aGet_aSet] at h
        by_cases hwv : w = v
        · rw [if_pos hwv] at h
          cases h
          exact Nat.lt_succ_self _
        · rw [if_neg hwv] at h
          exact Nat.lt_succ_of_lt (pre.idx_bound w i h)
      · intro w i h
        rw [aGet_aSet] at h
        rw [aGet_aSet]
        by_cases hwv : w = v
        · rw [if_pos hwv] at h
          rw [if_pos hwv]
          exact h
        · rw [if_neg hwv] at h
          rw [if_neg hwv]
          exact pre.low_eq w i h
      · intro w i h
        have hwv : ¬ w = v := by
          intro hwv
          rw [hwv, pre.v_unassigned] at h
          cases h
        rw [aGet_aSet, if_neg hwv]
        exact h
      · rw [aGet_aSet]
        simp
      · refine unassigned_strict g st _ v pre.v_node pre.v_unassigned ?_ ?_
        · show (aGet (aSet st.indices v st.index) v).isSome = true
          rw [aGet_aSet]
          simp
        · intro w hw
          show (aGet (aSet st.indices v st.index) w).isSome = true
          rw [aGet_aSet]
          by_cases hwv : w = v <;> simp [hwv, hw]
      · intro s hs
        exact Or.inl hs
    have hdeps : ∀ w ∈ g.getDependencies v, w ∈ g.getNodes ∧ g.hasEdge v w = true := by
      intro w hw
      refine ⟨?_, (hasEdge_iff_mem_deps g v w).mpr hw⟩
      unfold DependencyGraph.getDependencies at hw
      cases hv : aGet g.nodes v with
      | none => rw [hv] at hw; simp at hw
      | some n =>
        rw [hv] at hw
        have := (hCl v n hv).1 w hw
        unfold DependencyGraph.getNodes
        exact (aGet_isSome_iff_mem_keys g.nodes w).mp this
    have hfold : ∀ ws : List String, (∀ w ∈ ws, w ∈ g.getNodes ∧ g.hasEdge v w = true) →
        ∀ acc, TarjanMid g st v acc →
          TarjanMid g st v (ws.foldl (tarjanStep (strongConnect g f) v) acc) := by
      intro ws
      induction ws with
      | nil =>
        intro _ acc hacc
        exact hacc
      | cons w rest ihw =>
        intro hws acc hacc
        obtain ⟨hwN, hwE⟩ := hws w (by simp)
        simp only [List.foldl_cons]
        refine ihw (fun x hx => hws x (by simp [hx])) _ ?_
        unfold tarjanStep
        by_cases h1 : (aGet acc.indices w).isNone
        · rw [if_pos h1]
          have hnone : aGet acc.indices w = none := Option.isNone_iff_eq_none.mp h1
          have hpre' : TarjanPre g acc w f :=
            { v_node := hwN
              v_unassigned := hnone
              fuel_ok := lt_of_lt_of_le hacc.unassigned_lt (Nat.lt_succ_iff.mp pre.fuel_ok)
              idx_bound := hacc.idx_bound
              low_eq := hacc.low_eq
              onStack_iff := hacc.onStack_iff
              stack_assigned := hacc.stack_assigned
              stack_reaches := by
                intro x hx
                rw [hacc.stack_eq] at hx
                rcases List.mem_cons.mp hx with rfl | hx'
                · exact Or.inr (.single hwE)
                · exact reachStar_snoc g (pre.stack_reaches x hx') hwE }
          have post := ih w acc hpre'
          have hidxv : aGet (strongConnect g f w acc).indices v = some st.index :=
            post.idx_mono v st.index hacc.idx_v
          have hlowv : aGet (strongConnect g f w acc).lowlinks v = some st.index :=
            post.low_eq v st.index hidxv
          have hloww : aGet (strongConnect g f w acc).lowlinks w = some acc.index :=
            post.low_eq w acc.index post.idx_v
          have hmin : min (nGet (strongConnect g f w acc).lowlinks v)
              (nGet (strongConnect g f w acc).lowlinks w) = st.index := by
            unfold nGet
            rw [hlowv, hloww]
            simp only [Option.getD_some]
            exact Nat.min_eq_left (Nat.le_of_lt hacc.index_gt)
          refine ⟨?_, post.onStack_iff, post.stack_assigned, post.idx_bound, ?_, ?_, ?_, hidxv, ?_, ?_⟩
          · rw [post.stack_eq, hacc.stack_eq]
          · intro x i hx
            show aGet (aSet (strongConnect g f w acc).lowlinks v
              (min (nGet (strongConnect g f w acc).lowlinks v)
                (nGet (strongConnect g f w acc).lowlinks w))) x = some i
            rw [aGet_aSet]
            by_cases hxv : x = v
            · subst hxv
              rw [hx] at hidxv
              cases hidxv
              rw [if_pos rfl, hmin]
            · rw [if_neg hxv]
              exact post.low_eq x i hx
          · exact lt_trans hacc.index_gt post.index_gt
          · intro x i hx
            exact post.idx_mono x i (hacc.idx_mono x i hx)
          · exact lt_trans post.unassigned_lt hacc.unassigned_lt
          · intro s hs
            rcases post.sccs_app s hs with hs' | hs'
            · exact hacc.sccs_app s hs'
            · exact Or.inr hs'
        · rw [if_neg h1]
          by_cases h2 : acc.onStack.contains w
          · exfalso
            have hwS : w ∈ acc.stack := (hacc.onStack_iff w).mp ((scontains_iff _ _).mp h2)
            rw [hacc.stack_eq] at hwS
            rcases List.mem_cons.mp hwS with rfl | hwS'
            · exact hA w (.single hwE)
            · exact hA v (gpath_cycle g hwE (pre.stack_reaches w hwS'))
          · rw [if_neg (by simpa using h2)]
            exact hacc
    have hfinal : ∀ st2, TarjanMid g st v st2 →
        TarjanPost g st
          (if nGet st2.lowlinks v = nGet st2.indices v then
            { st2 with
              stack := (popUntil v st2.stack).2
              onStack := st2.onStack.filter (fun x => ¬ (popUntil v st2.stack).1.contains x)
              sccs := st2.sccs ++ [(popUntil v st2.stack).1] }
          else st2) v := by
      intro st2 hmid
      have hlowv : aGet st2.lowlinks v = some st.index := hmid.low_eq v st.index hmid.idx_v
      have hcond : nGet st2.lowlinks v = nGet st2.indices v := by
        unfold nGet
        rw [hlowv, hmid.idx_v]
      rw [if_pos hcond]
      have hpop : popUntil v st2.stack = ([v], st.stack) := by
        rw [hmid.stack_eq]
        simp [popUntil]
      refine ⟨?_, ?_, ?_, hmid.idx_bound, hmid.low_eq, hmid.index_gt, hmid.idx_mono,
        hmid.idx_v, hmid.unassigned_lt, ?_⟩
      · show (popUntil v st2.stack).2 = st.stack
        rw [hpop]
      · intro x
        show x ∈ st2.onStack.filter (fun y => ¬ (popUntil v st2.stack).1.contains y) ↔
          x ∈ (popUntil v st2.stack).2
        rw [hpop]
        simp only [List.mem_filter]
        constructor
        · rintro ⟨hx1, hx2⟩
          have hx1' : x ∈ v :: st.stack := by
            rw [← hmid.stack_eq]
            exact (hmid.onStack_iff x).mp hx1
          simp at hx2
          rcases List.mem_cons.mp hx1' with rfl | h
          · exact absurd rfl hx2
          · exact h
        · intro hx
          have hxne : x ≠ v := fun hxv => hvstack (hxv ▸ hx)
          refine ⟨(hmid.onStack_iff x).mpr ?_, by simp [hxne]⟩
          rw [hmid.stack_eq]
          exact List.mem_cons_of_mem _ hx
      · intro x hx
        have hx' : x ∈ st.stack := by
          revert hx
          show x ∈ (popUntil v st2.stack).2 → x ∈ st.stack
          rw [hpop]
          exact id
        apply hmid.stack_assigned
        rw [hmid.stack_eq]
        exact List.mem_cons_of_mem _ hx'
      · intro s hs
        have hs' : s ∈ st2.sccs ++ [(popUntil v st2.stack).1] := hs
        rw [hpop] at hs'
        rcases List.mem_append.mp hs' with h | h
        · exact hmid.sccs_app s h
        · simp at h
          exact Or.inr ⟨v, h⟩
    show TarjanPost g st (strongConnect g (f + 1) v st) v
    simp only [strongConnect]
    exact hfinal _ (hfold (g.getDependencies v) hdeps _ hmid1)

/-- On an acyclic, closed graph, Tarjan emits only singleton SCCs. -/
theorem sccs_singleton_of_acyclic (g : DependencyGraph) (hCl : ClosedGraph g) (hA : Acyclic g) :
    ∀ s ∈ findStronglyConnectedComponents g, ∃ x, s = [x] := by
  suffices h : ∀ l : List String, (∀ x ∈ l, x ∈ g.getNodes) → ∀ st, TarjanTop g st →
      TarjanTop g (l.foldl
        (fun st v =>
          if (aGet st.indices v).isNone then strongConnect g (g.nodes.length + 1) v st else st)
        st) by
    intro s hs
    unfold findStronglyConnectedComponents at hs
    have hinit : TarjanTop g tarjanInit := by
      refine ⟨rfl, ?_, ?_, ?_, ?_⟩
      · intro w
        simp [tarjanInit]
      · intro w i h'
        simp [tarjanInit, aGet] at h'
      · intro w i h'
        simp [tarjanInit, aGet] at h'
      · intro s hs'
        simp [tarjanInit] at hs'
    exact (h g.getNodes (fun x hx => hx) tarjanInit hinit).sccs_singleton s hs
  intro l
  induction l with
  | nil =>
    intro _ st h
    exact h
  | cons x rest ihl =>
    intro hmem st htop
    simp only [List.foldl_cons]
    refine ihl (fun y hy => hmem y (by simp [hy])) _ ?_
    by_cases hx : (aGet st.indices x).isNone
    · rw [if_pos hx]
      have hfuel : unassigned g st < g.nodes.length + 1 := by
        apply Nat.lt_succ_of_le
        calc (g.getNodes.filter (fun v => (aGet st.indices v).isNone)).length
            ≤ g.getNodes.length := List.length_filter_le _ _
          _ = g.nodes.length := by
              unfold DependencyGraph.getNodes
              exact List.length_map _ _
      have pre : TarjanPre g st x (g.nodes.length + 1) :=
        { v_node := hmem x (by simp)
          v_unassigned := Option.isNone_iff_eq_none.mp hx
          fuel_ok := hfuel
          idx_bound := htop.idx_bound
          low_eq := htop.low_eq
          onStack_iff := htop.onStack_iff
          stack_assigned := by
            intro w hw
            rw [htop.stack_nil] at hw
            cases hw
          stack_reaches := by
            intro w hw
            rw [htop.stack_nil] at hw
            cases hw }
      have post := strongConnect_acyclic g hCl hA _ x st pre
      exact
        { stack_nil := by rw [post.stack_eq, htop.stack_nil]
          onStack_iff := post.onStack_iff
          idx_bound := post.idx_bound
          low_eq := post.low_eq
          sccs_singleton := by
            intro s hs
            rcases post.sccs_app s hs with h' | h'
            · exact htop.sccs_singleton s h'
            · exact h' }
    · rw [if_neg hx]
      exact htop

/-- C5: on every closed graph with no directed cycle (no self-loop and no
SCC of size ≥ 2), `findCycles` returns the empty list. -/
theorem c5_acyclic_no_cycles (g : DependencyGraph) (hCl : ClosedGraph g) (hA : Acyclic g) :
    findCycles g = [] := by
  have hsccs := sccs_singleton_of_acyclic g hCl hA
  have h1 : (findStronglyConnectedComponents g).filter (fun s => s.length > 1) = [] := by
    rw [List.filter_eq_nil_iff]
    intro s hs
    obtain ⟨x, rfl⟩ := hsccs s hs
    simp
  have h2 : g.getNodes.filter (fun n => (g.getDependencies n).contains n) = [] := by
    rw [List.filter_eq_nil_iff]
    intro n _
    simp only [Bool.not_eq_true]
    rw [Bool.eq_false_iff]
    intro hc
    exact hA n (.single ((hasEdge_iff_mem_deps g n n).mpr ((scontains_iff _ _).mp hc)))
  unfold findCycles
  simp only [h1, h2, List.map_nil, List.nil_append]

/-- C5 witness: the theorem applied to a concrete one-node acyclic graph. -/
theorem c5_acyclic_no_cycles_witness : findCycles gAcy = [] :=
  c5_acyclic_no_cycles gAcy
    (by
      intro u nu hu
      rw [show gAcy.nodes = [("a", DependencyNode.mk "a" [] [])] from rfl] at hu
      simp only [aGet] at hu
      split at hu
      · cases hu
        constructor <;> intro v hv <;> simp at hv
      · cases hu)
    (by
      have hne : ∀ u w, ¬ (gAcy.hasEdge u w = true) := by
        intro u w h
        unfold DependencyGraph.hasEdge at h
        rw [show gAcy.nodes = [("a", DependencyNode.mk "a" [] [])] from rfl] at h
        by_cases hu : u = "a"
        · simp [aGet, hu] at h
        · simp [aGet, hu] at h
      have hgen : ∀ a b, GPath gAcy a b → False := by
        intro a b hp
        induction hp with
        | single h => exact hne _ _ h
        | cons h _ _ => exact hne _ _ h
      intro v hp
      exact hgen v v hp)
